import Mathlib

/-!
Verification of the café shift-scheduling engine
(`src/scheduler/engine/{manager,cohort,sandwich,orchestrator}.py`,
`src/scheduler/services/timeplan.py`, `src/scheduler/config.py`).

Conventions of the shallow embedding:
* Calendar dates are modelled as day numbers (`Nat`); `dayName d` is the
  English weekday name of day `d`, with day 0 a Monday, cycling every 7
  days.  This represents `pd.Timestamp(date).day_name()`.
* Times of day are the `"HH:MM"` strings the code manipulates; string
  comparison is Python's code-point lexicographic comparison, and
  durations are computed — as `pd.Timestamp` subtraction does — from the
  parsed minute counts.  A string that does not parse makes the Python
  code raise, which the embedding models as an `Except.error`.
* Python floats are modelled as `ℚ` (all arithmetic performed by the
  engine on hours is exact decimal arithmetic on small numbers).
* Python dicts in the configuration are modelled as association lists
  with unique keys; `dict_get` is `d.get(k)`.
* `calculate_employee_score` lives in `src/scheduler/services/scoring.py`,
  which is not among the examined sources; every scheduler takes the
  score function as an explicit parameter (`ScoreFn`), with the per-run
  constant arguments (weights, hours policy, penalties) absorbed into it.
  No claim proved here depends on the internals of the score function.
* `can_assign_employee`, `build_requirements_for_day` and
  `validate_assignment_constraints` live in the missing
  `src/scheduler/services/{constraints,requirements}.py`; they are
  modelled from the specification (see their doc comments).
-/

/-! ## Calendar and time-of-day primitives -/

/-- English weekday name of day number `d`; day 0 is a Monday.  Models
`pd.Timestamp(date).day_name()`. -/
def dayName (d : Nat) : String :=
  match d % 7 with
  | 0 => "Monday"
  | 1 => "Tuesday"
  | 2 => "Wednesday"
  | 3 => "Thursday"
  | 4 => "Friday"
  | 5 => "Saturday"
  | _ => "Sunday"

/-- `day_name in ["Saturday", "Sunday"]`, the weekend test used by every
scheduler and by the time-window resolver. -/
def is_weekend_day (d : Nat) : Bool :=
  ["Saturday", "Sunday"].contains (dayName d)

/-- `str.split(sep)` for a one-character separator, on the character
list of the string. -/
def splitOnChar (c : Char) : List Char → List (List Char)
  | [] => [[]]
  | a :: as =>
    let r := splitOnChar c as
    if a == c then [] :: r
    else
      match r with
      | [] => [[a]]
      | seg :: rest => (a :: seg) :: rest

/-- Decimal value of a digit character, `none` otherwise. -/
def digitVal? (c : Char) : Option Nat :=
  if c.isDigit then some (c.toNat - 48) else none

/-- Helper of `natOfDigits?`. -/
def natOfDigitsAux : List Char → Nat → Option Nat
  | [], acc => some acc
  | c :: cs, acc =>
    match digitVal? c with
    | some v => natOfDigitsAux cs (acc * 10 + v)
    | none => none

/-- Python `int(s)` on a plain digit string; `none` models the
`ValueError` on an empty or non-numeric string. -/
def natOfDigits? (l : List Char) : Option Nat :=
  match l with
  | [] => none
  | _ => natOfDigitsAux l 0

/-- `parse_time_string` (src/scheduler/services/timeplan.py): splits
`"HH:MM"` at the colon and parses both parts; `none` models the
exception Python raises on a malformed string. -/
def parse_time_string (s : String) : Option (Nat × Nat) :=
  match splitOnChar ':' s.data with
  | [h, m] =>
    match natOfDigits? h, natOfDigits? m with
    | some hh, some mm => some (hh, mm)
    | _, _ => none
  | _ => none

/-- Minute-of-day count of a `"HH:MM"` string. -/
def hm_minutes (s : String) : Option Int :=
  (parse_time_string s).map (fun p => (p.1 : Int) * 60 + (p.2 : Int))

/-- Python's `<` on strings: code-point lexicographic comparison. -/
def pyStrLt : List Char → List Char → Bool
  | [], [] => false
  | [], _ :: _ => true
  | _ :: _, [] => false
  | a :: as, b :: bs =>
    if a < b then true
    else if b < a then false
    else pyStrLt as bs

/-- Python's `s >= t` on strings. -/
def pyStrGe (s t : String) : Bool :=
  ! pyStrLt s.data t.data

instance {ε α : Type} [DecidableEq ε] [DecidableEq α] : DecidableEq (Except ε α) := fun
  | .error a, .error b => decidable_of_iff (a = b) (by simp)
  | .error _, .ok _ => isFalse (fun h => by cases h)
  | .ok _, .error _ => isFalse (fun h => by cases h)
  | .ok a, .ok b => decidable_of_iff (a = b) (by simp)

/-! ## Domain model (src/scheduler/domain/models.py) -/

abbrev EmpId := Int

/-- `Employee` (src/scheduler/domain/models.py).  Skill fields are
nullable floats on the Python side. -/
structure Employee where
  employee_id : EmpId
  first_name : String := ""
  last_name : String := ""
  primary_role : String
  skill_coffee : Option ℚ := none
  skill_sandwich : Option ℚ := none
  customer_service_rating : Option ℚ := none
  skill_speed : Option ℚ := none
deriving DecidableEq, Repr

/-- `Shift` (src/scheduler/domain/models.py); the engine uses only
`shift_id`, `date` and `week_id`. -/
structure Shift where
  shift_id : Int
  date : Nat
  week_id : String := ""
deriving DecidableEq, Repr

/-- A timezone-aware datetime as produced by
`create_datetime_from_date_and_time`: a date, an `"HH:MM"` time of day
and a timezone name. -/
structure DateTime where
  date : Nat
  hm : String
  tz : String
deriving DecidableEq, Repr

/-- `create_datetime_from_date_and_time` (src/scheduler/services/timeplan.py). -/
def create_datetime_from_date_and_time (shift_date : Nat) (time_hm : String)
    (timezone : String) : DateTime :=
  ⟨shift_date, time_hm, timezone⟩

/-- `Assignment` (src/scheduler/domain/models.py), as constructed by the
schedulers (the `id` document field stays `None` before persistence and
is omitted). -/
structure Assignment where
  shift_id : Int
  emp_id : EmpId
  start_time : DateTime
  end_time : DateTime
  role : Option String := none
  shift_type : Option String := none
  day_type : Option String := none
deriving DecidableEq, Repr

/-! ## Configuration (src/scheduler/config.py) -/

/-- `Weights` dataclass. -/
structure Weights where
  manager_weight : ℚ := 1
  coffee : ℚ := 1
  sandwich : ℚ := 1
  speed : ℚ := 1/2
  customer_service : ℚ := 1/2
  fairness_penalty_per_std_above_median : ℚ := 1/4
deriving DecidableEq, Repr

/-- `HoursCaps` dataclass. -/
structure HoursCaps where
  max_hours_per_week_per_employee : Int := 40
deriving DecidableEq, Repr

/-- `DefaultShift` dataclass.  The Python field `end` is called `end_`
here (`end` is a Lean keyword). -/
structure DefaultShift where
  start : String := "07:00"
  end_ : String := "15:00"
  duration_hours : Int := 8
deriving DecidableEq, Repr

/-- One `{"start": .., "end": ..}` window dict of the role time-window
table. -/
structure Window where
  start : String
  end_ : String
deriving DecidableEq, Repr

/-- A value of the role time-window table: either a single window dict
or a slot-indexed list of window dicts (the code distinguishes the two
with `isinstance`). -/
inductive WinSpec where
  | single (w : Window)
  | multi (ws : List Window)
deriving DecidableEq, Repr

/-- The per-role entry of `role_time_windows`: the three recognised keys,
each optional.  An entry with all three keys absent is the falsy empty
dict. -/
structure RoleWindows where
  weekend_staggered : Option WinSpec := none
  weekend : Option WinSpec := none
  weekday : Option WinSpec := none
deriving DecidableEq, Repr

/-- One `hours_policy` entry; each field is optional so that validation
can detect missing required keys. -/
structure HoursPolicyEntry where
  target_min : Option ℚ := none
  target_max : Option ℚ := none
  hard_cap : Option ℚ := none
deriving DecidableEq, Repr

/-- One `weekend_fallback` entry; `enabled` defaults to `False` and
`min_required` to `1` when the keys are absent. -/
structure FallbackRule where
  enabled : Option Bool := none
  min_required : Option Int := none
deriving DecidableEq, Repr

/-- `SchedulerConfig` dataclass (src/scheduler/config.py).  Fields the
embedded engine components never consume (`busy_days`,
`schedule_busy_days_first`, `reserve_hours_for_weekend`, the demand
profile table and the penalty/weight tables that only feed the abstract
score function) are carried where they matter for fidelity and omitted
otherwise.  Date keys of `overrides` are day numbers. -/
structure SchedulerConfig where
  timezone : String := "Australia/Sydney"
  default_shift : DefaultShift := {}
  default_requirements : List (String × Int) :=
    [("MANAGER", 1), ("BARISTA", 2), ("WAITER", 1), ("SANDWICH", 1)]
  overrides : List (Nat × List (String × Int)) := []
  weekend_requirements : List (String × Int) :=
    [("MANAGER", 2), ("BARISTA", 1), ("WAITER", 2), ("SANDWICH", 1)]
  hours_caps : HoursCaps := {}
  weights : Weights := {}
  role_time_windows : List (String × RoleWindows) := []
  hours_policy : List (String × HoursPolicyEntry) := []
  hours_penalties : List (String × ℚ) :=
    [("per_hour_below_target", 1/2), ("per_hour_above_target", 3/4)]
  global_hard_cap : Option ℚ := none
  weekend_fallback : List (String × FallbackRule) := []
deriving DecidableEq, Repr

/-- `d.get(k)` on a Python dict modelled as an association list with
unique keys. -/
def dict_get {κ α : Type} [BEq κ] (l : List (κ × α)) (k : κ) : Option α :=
  (l.find? (fun p => p.1 == k)).map (fun p => p.2)

/-! ## Time window resolver (src/scheduler/services/timeplan.py) -/

/-- `get_time_window_for_role`: resolves the `(start_hm, end_hm)` window
for a role on a date.  The nested matches mirror the early-return
cascade of the source; in particular, on a weekend date an unmatched
`weekend_staggered` / `weekend` entry falls through to the *weekday*
check before the default window.  The Python `slot_index` parameter
defaults to 0 at call sites that omit it. -/
def get_time_window_for_role (role : String) (shift_date : Nat)
    (cfg : SchedulerConfig) (slot_index : Nat) : String × String :=
  let role_windows := (dict_get cfg.role_time_windows role).getD {}
  if role_windows = {} then
    (cfg.default_shift.start, cfg.default_shift.end_)
  else
    let weekday_part : String × String :=
      match role_windows.weekday with
      | some (WinSpec.multi ws) =>
        match ws.get? slot_index with
        | some w => (w.start, w.end_)
        | none => (cfg.default_shift.start, cfg.default_shift.end_)
      | some (WinSpec.single w) => (w.start, w.end_)
      | none => (cfg.default_shift.start, cfg.default_shift.end_)
    let weekend_part : String × String :=
      match role_windows.weekend with
      | some (WinSpec.multi ws) =>
        match ws.get? slot_index with
        | some w => (w.start, w.end_)
        | none => weekday_part
      | some (WinSpec.single w) => (w.start, w.end_)
      | none => weekday_part
    if is_weekend_day shift_date then
      match role_windows.weekend_staggered with
      | some (WinSpec.multi ws) =>
        match ws.get? slot_index with
        | some w => (w.start, w.end_)
        | none => weekend_part
      | _ => weekend_part
    else weekday_part

/-! ## Configuration validation (src/scheduler/config.py, `_validate_config`) -/

/-- First validation error of one `hours_policy` entry: required keys
checked in source order, then `target_min > target_max`. -/
def policy_entry_error (role : String) (pol : HoursPolicyEntry) : Option String :=
  if pol.target_min.isNone then
    some ("hours_policy for role " ++ role ++ " missing target_min")
  else if pol.target_max.isNone then
    some ("hours_policy for role " ++ role ++ " missing target_max")
  else if pol.hard_cap.isNone then
    some ("hours_policy for role " ++ role ++ " missing hard_cap")
  else if pol.target_min.getD 0 > pol.target_max.getD 0 then
    some ("hours_policy target_min > target_max for role " ++ role)
  else none

/-- `_validate_config`: raises (here: returns `.error`) on the first
failing check, in source order.  The `role_time_windows` entries-are-
dicts check of the source cannot fail in this typed embedding and is
therefore omitted. -/
def _validate_config (cfg : SchedulerConfig) : Except String Unit :=
  if cfg.default_shift.duration_hours ≤ 0 then
    .error "default_shift.duration_hours must be positive"
  else if pyStrGe cfg.default_shift.start cfg.default_shift.end_ then
    .error "default_shift.start must be before default_shift.end"
  else match cfg.default_requirements.find? (fun p => p.2 < 0) with
  | some p => .error ("default_requirements for role " ++ p.1 ++ " must be >= 0")
  | none =>
    match cfg.overrides.findSome?
        (fun q => (q.2.find? (fun p => p.2 < 0)).map (fun p => (q.1, p.1))) with
    | some bad =>
      .error ("override " ++ toString bad.1 ++ " role " ++ bad.2 ++
        " requirement must be >= 0")
    | none =>
      if cfg.hours_caps.max_hours_per_week_per_employee ≤ 0 then
        .error "hours_caps.max_hours_per_week_per_employee must be positive"
      else
        match cfg.hours_policy.findSome? (fun p => policy_entry_error p.1 p.2) with
        | some e => .error e
        | none => .ok ()

/-! ## Effective cap and the cap argument -/

/-- Python `getattr(obj, "global_hard_cap", default)`: the attribute's
value when the object defines the attribute, else the default.  The
first argument is `some v` when the attribute is defined with value `v`
(the value itself being `Optional[float]`). -/
def getattr_global_hard_cap (attr_defined : Option (Option ℚ))
    (dflt : Option ℚ) : Option ℚ :=
  match attr_defined with
  | some v => v
  | none => dflt

/-- `SchedulerConfig` is a dataclass whose `global_hard_cap` field has
default `None`: every instance defines the attribute. -/
def SchedulerConfig.global_hard_cap_attr (cfg : SchedulerConfig) :
    Option (Option ℚ) :=
  some cfg.global_hard_cap

/-- The cap argument each role scheduler passes to the eligibility
checker: `getattr(cfg, 'global_hard_cap', 50.0)`
(src/scheduler/engine/{manager,cohort,sandwich}.py). -/
def capArgument (cfg : SchedulerConfig) : Option ℚ :=
  getattr_global_hard_cap cfg.global_hard_cap_attr (some 50)

/-- Modelled from the spec: the effective weekly-hour ceiling used by
`can_assign_employee` (src/scheduler/services/constraints.py, not among
the examined sources).  Per §4.3 and the glossary: the role-specific
`hard_cap` when configured, else the passed (global) cap when not
`None`, else the constant 50-hour ceiling. -/
def effective_cap (pol : Option HoursPolicyEntry) (cap : Option ℚ) : ℚ :=
  match pol.bind (fun p => p.hard_cap) with
  | some c => c
  | none => cap.getD 50

/-- Modelled from the spec: `can_assign_employee`
(src/scheduler/services/constraints.py, not among the examined
sources).  Per §4.3 all of the following must hold, and the function
never raises: (a) the employee is not already in the date's assigned
set; (b) the employee's primary role matches the scheduler's target
role; (c) the running weekly hours plus this shift's hours do not
exceed the effective cap. -/
def can_assign_employee (emp : Employee) (role : String) (_shift_date : Nat)
    (shift_hours : ℚ) (assigned_set : List EmpId)
    (weekly_hours : EmpId → ℚ)
    (hours_policy : List (String × HoursPolicyEntry)) (cap : Option ℚ) : Bool :=
  !(assigned_set.contains emp.employee_id)
  && (emp.primary_role == role)
  && decide (weekly_hours emp.employee_id + shift_hours
      ≤ effective_cap (dict_get hours_policy role) cap)

/-- Modelled from the spec: `build_requirements_for_day`
(src/scheduler/services/requirements.py, not among the examined
sources).  Per §4.2: a date-keyed override map when present, else the
weekend per-role headcounts on Saturday/Sunday, else the weekday
defaults. -/
def build_requirements_for_day (d : Nat) (cfg : SchedulerConfig) :
    List (String × Int) :=
  match dict_get cfg.overrides d with
  | some m => m
  | none =>
    if is_weekend_day d then cfg.weekend_requirements
    else cfg.default_requirements

/-! ## Candidate selection (`scored.sort(key=.., reverse=True); scored[0]`) -/

/-- One step of a stable descending insertion sort on `(score, employee)`
pairs: the new element goes before the first element whose score is not
strictly greater, so earlier elements win ties. -/
def insert_desc (x : ℚ × Employee) : List (ℚ × Employee) → List (ℚ × Employee)
  | [] => [x]
  | y :: ys => if y.1 > x.1 then y :: insert_desc x ys else x :: y :: ys

/-- Stable sort by descending score: the unique stable descending
reordering, i.e. exactly what Python's
`scored.sort(key=lambda x: x[0], reverse=True)` produces. -/
def sort_desc : List (ℚ × Employee) → List (ℚ × Employee)
  | [] => []
  | x :: xs => insert_desc x (sort_desc xs)

/-- `scored[0]` after the stable descending sort, for a nonempty scored
list given as head and tail. -/
def select_best (x : ℚ × Employee) (xs : List (ℚ × Employee)) : ℚ × Employee :=
  (sort_desc (x :: xs)).headD x

/-! ## Scheduler state and the commit step -/

/-- The score function.  `calculate_employee_score`
(src/scheduler/services/scoring.py) is not among the examined sources;
the schedulers pass it the role, the employee, the employee's current
weekly hours and the cohort-hours snapshot, with the per-run constant
arguments (weights, hours policy, hours penalties) absorbed. -/
abbrev ScoreFn := String → Employee → ℚ → List (EmpId × ℚ) → ℚ

/-- The per-run mutable accumulators of one role scheduler plus the
assignment list being built: `weekly_hours` (a `defaultdict(float)`),
`assigned_today` (date → set of employee ids) and `assignments`. -/
structure SchedState where
  weekly_hours : EmpId → ℚ
  assigned_today : Nat → List EmpId
  assignments : List Assignment

/-- The empty state every `make_schedule` starts from. -/
def initState : SchedState :=
  { weekly_hours := fun _ => 0
    assigned_today := fun _ => []
    assignments := [] }

/-- The assignment value each scheduler constructs for a selected
employee. -/
def mk_assignment (role : String) (tz : String) (shift : Shift)
    (start_hm end_hm shift_type day_type : String) (b : Employee) : Assignment :=
  { shift_id := shift.shift_id
    emp_id := b.employee_id
    start_time := create_datetime_from_date_and_time shift.date start_hm tz
    end_time := create_datetime_from_date_and_time shift.date end_hm tz
    role := some role
    shift_type := some shift_type
    day_type := some day_type }

/-- Committing an assignment: append it, add the shift's hours to the
employee's weekly total and the employee to the date's assigned set
(the three update statements shared by all schedulers). -/
def commit (role : String) (tz : String) (shift : Shift)
    (start_hm end_hm shift_type day_type : String) (shift_hours : ℚ)
    (b : Employee) (st : SchedState) : SchedState :=
  { weekly_hours := fun e =>
      if e == b.employee_id then st.weekly_hours e + shift_hours
      else st.weekly_hours e
    assigned_today := fun d =>
      if d == shift.date then b.employee_id :: st.assigned_today d
      else st.assigned_today d
    assignments := st.assignments ++
      [mk_assignment role tz shift start_hm end_hm shift_type day_type b] }

/-! ## Repositories (src/scheduler/domain/repositories.py) -/

/-- `EmployeeRepository.get_by_role`: the employees whose `primary_role`
equals `role.upper()`.  (Firestore keys employee documents by
`employee_id`, so a repository never holds two employees with the same
id; theorems that need this take it as a hypothesis.) -/
def get_by_role (emps : List Employee) (role : String) : List Employee :=
  emps.filter (fun e => e.primary_role == role.toUpper)

/-- Stable ascending insertion by date (later shifts go after equal
dates), modelling Python's stable `sorted(shifts, key=lambda s: s.date)`. -/
def insert_by_date (s : Shift) : List Shift → List Shift
  | [] => [s]
  | t :: ts => if t.date ≤ s.date then t :: insert_by_date s ts else s :: t :: ts

/-- `sorted(shifts, key=lambda s: s.date)`. -/
def sort_by_date (l : List Shift) : List Shift :=
  l.foldl (fun acc s => insert_by_date s acc) []

/-- The manager scheduler's sort key: weekends first (0), then weekdays
(1), each group by ascending date. -/
def manager_sort_key (s : Shift) : Nat × Nat :=
  (if is_weekend_day s.date then 0 else 1, s.date)

/-- Lexicographic `≤` on the manager sort key. -/
def mkey_le (a b : Nat × Nat) : Bool :=
  a.1 < b.1 || (a.1 == b.1 && a.2 ≤ b.2)

/-- Stable insertion by the manager sort key. -/
def insert_by_mkey (s : Shift) : List Shift → List Shift
  | [] => [s]
  | t :: ts =>
    if mkey_le (manager_sort_key t) (manager_sort_key s) then
      t :: insert_by_mkey s ts
    else s :: t :: ts

/-- `sorted(shifts, key=sort_key)` of the manager scheduler: busy days
(weekends) first. -/
def sort_shifts_manager (l : List Shift) : List Shift :=
  l.foldl (fun acc s => insert_by_mkey s acc) []

/-! ## Cohort scheduler (src/scheduler/engine/cohort.py) -/

/-- The slot loop (`for slot_idx in range(needed)`) of
`CohortScheduler.make_schedule`, lines 95-167: resolve the (possibly
staggered) window, compute the shift hours, filter candidates through
`can_assign_employee`; on an empty pool try the weekend fallback and
otherwise raise; else score, pick the stable-sort best and commit.  The
first argument is the number of slots still to process, the second the
current slot index. -/
def cohort_assign_slots (role : String) (cfg : SchedulerConfig) (score : ScoreFn)
    (employees_list : List Employee) (shift : Shift) (is_weekend : Bool)
    (cohort_hours : List (EmpId × ℚ)) :
    Nat → Nat → SchedState → Except String SchedState
  | 0, _, st => .ok st
  | n + 1, slot_idx, st =>
    let win := get_time_window_for_role role shift.date cfg slot_idx
    match hm_minutes win.1, hm_minutes win.2 with
    | some ms, some me =>
      let shift_hours : ℚ := ((me - ms : Int) : ℚ) / 60
      let candidates := employees_list.filter (fun emp =>
        can_assign_employee emp role shift.date shift_hours
          (st.assigned_today shift.date) st.weekly_hours cfg.hours_policy
          (capArgument cfg))
      match candidates with
      | [] =>
        -- `hasattr(cfg, 'weekend_fallback')` always holds: the dataclass
        -- defines the field (default `{}`).
        let fallback := (dict_get cfg.weekend_fallback role).getD {}
        if is_weekend && fallback.enabled.getD false
            && decide ((slot_idx : Int) ≥ fallback.min_required.getD 1) then
          cohort_assign_slots role cfg score employees_list shift is_weekend
            cohort_hours n (slot_idx + 1) st
        else
          .error ("Cannot assign " ++ role ++ " for " ++ toString shift.date ++
            ": insufficient eligible staff")
      | c :: cs =>
        let first_scored :=
          (score role c (st.weekly_hours c.employee_id) cohort_hours, c)
        let scored := first_scored ::
          cs.map (fun emp =>
            (score role emp (st.weekly_hours emp.employee_id) cohort_hours, emp))
        let best_emp := (select_best first_scored scored.tail).2
        let shift_type :=
          if is_weekend then "weekend_slot" ++ toString (slot_idx + 1)
          else "weekday"
        let day_type := if is_weekend then "weekend" else "weekday"
        cohort_assign_slots role cfg score employees_list shift is_weekend
          cohort_hours n (slot_idx + 1)
          (commit role cfg.timezone shift win.1 win.2 shift_type day_type
            shift_hours best_emp st)
    | _, _ =>
      .error ("invalid time window for " ++ role ++ " on " ++
        toString shift.date)

/-- The per-day loop of `CohortScheduler.make_schedule`, lines 81-167:
per shift, compute the day type, the requirements and the cohort-hours
snapshot, then run the slot loop. -/
def cohort_day_loop (role : String) (cfg : SchedulerConfig) (score : ScoreFn)
    (employees_list : List Employee) :
    List Shift → SchedState → Except String SchedState
  | [], st => .ok st
  | shift :: rest, st =>
    let is_weekend := is_weekend_day shift.date
    let requirements := build_requirements_for_day shift.date cfg
    let needed := (dict_get requirements role).getD 1
    let cohort_hours := employees_list.map (fun e =>
      (e.employee_id, st.weekly_hours e.employee_id))
    match cohort_assign_slots role cfg score employees_list shift is_weekend
        cohort_hours needed.toNat 0 st with
    | .error e => .error e
    | .ok st' => cohort_day_loop role cfg score employees_list rest st'

/-- `CohortScheduler.make_schedule` (src/scheduler/engine/cohort.py):
fetch the role's employees and the week's shifts, iterate the shifts in
date order and return the accumulated assignments.  The constructor's
`role.upper()` normalisation and its BARISTA/WAITER restriction are
folded in. -/
def CohortScheduler.make_schedule (role : String) (emps : List Employee)
    (shifts : List Shift) (cfg : SchedulerConfig) (score : ScoreFn) :
    Except String (List Assignment) :=
  if !(["BARISTA", "WAITER"].contains role.toUpper) then
    .error ("CohortScheduler only handles BARISTA and WAITER, not " ++ role)
  else
    let r := role.toUpper
    let employees_list := get_by_role emps r
    if employees_list.isEmpty then
      .error ("No " ++ r ++ " staff available for scheduling")
    else if shifts.isEmpty then
      .error "No shifts found for week"
    else
      match cohort_day_loop r cfg score employees_list (sort_by_date shifts)
          initState with
      | .error e => .error e
      | .ok st => .ok st.assignments

/-! ## Sandwich scheduler (src/scheduler/engine/sandwich.py) -/

/-- The slot loop of `SandwichScheduler.make_schedule`, lines 84-145:
identical to the cohort slot loop except that an empty candidate pool
always raises (there is no weekend-fallback path) and the shift-type
tags are `early_prep` / `weekend_prep`. -/
def sandwich_assign_slots (cfg : SchedulerConfig) (score : ScoreFn)
    (sandwich_staff : List Employee) (shift : Shift) (is_weekend : Bool)
    (cohort_hours : List (EmpId × ℚ)) :
    Nat → Nat → SchedState → Except String SchedState
  | 0, _, st => .ok st
  | n + 1, slot_idx, st =>
    let win := get_time_window_for_role "SANDWICH" shift.date cfg slot_idx
    match hm_minutes win.1, hm_minutes win.2 with
    | some ms, some me =>
      let shift_hours : ℚ := ((me - ms : Int) : ℚ) / 60
      let candidates := sandwich_staff.filter (fun emp =>
        can_assign_employee emp "SANDWICH" shift.date shift_hours
          (st.assigned_today shift.date) st.weekly_hours cfg.hours_policy
          (capArgument cfg))
      match candidates with
      | [] =>
        .error ("Cannot assign SANDWICH for " ++ toString shift.date ++
          ": insufficient eligible staff")
      | c :: cs =>
        let first_scored :=
          (score "SANDWICH" c (st.weekly_hours c.employee_id) cohort_hours, c)
        let scored := first_scored ::
          cs.map (fun emp =>
            (score "SANDWICH" emp (st.weekly_hours emp.employee_id)
              cohort_hours, emp))
        let best_emp := (select_best first_scored scored.tail).2
        let shift_type := if is_weekend then "weekend_prep" else "early_prep"
        let day_type := if is_weekend then "weekend" else "weekday"
        sandwich_assign_slots cfg score sandwich_staff shift is_weekend
          cohort_hours n (slot_idx + 1)
          (commit "SANDWICH" cfg.timezone shift win.1 win.2 shift_type day_type
            shift_hours best_emp st)
    | _, _ =>
      .error ("invalid time window for SANDWICH on " ++ toString shift.date)

/-- The per-day loop of `SandwichScheduler.make_schedule`, lines 70-145. -/
def sandwich_day_loop (cfg : SchedulerConfig) (score : ScoreFn)
    (sandwich_staff : List Employee) :
    List Shift → SchedState → Except String SchedState
  | [], st => .ok st
  | shift :: rest, st =>
    let is_weekend := is_weekend_day shift.date
    let requirements := build_requirements_for_day shift.date cfg
    let needed := (dict_get requirements "SANDWICH").getD 1
    let cohort_hours := sandwich_staff.map (fun e =>
      (e.employee_id, st.weekly_hours e.employee_id))
    match sandwich_assign_slots cfg score sandwich_staff shift is_weekend
        cohort_hours needed.toNat 0 st with
    | .error e => .error e
    | .ok st' => sandwich_day_loop cfg score sandwich_staff rest st'

/-- `SandwichScheduler.make_schedule` (src/scheduler/engine/sandwich.py). -/
def SandwichScheduler.make_schedule (emps : List Employee)
    (shifts : List Shift) (cfg : SchedulerConfig) (score : ScoreFn) :
    Except String (List Assignment) :=
  let sandwich_staff := get_by_role emps "SANDWICH"
  if sandwich_staff.isEmpty then
    .error "No sandwich staff available for scheduling"
  else if shifts.isEmpty then
    .error "No shifts found for week"
  else
    match sandwich_day_loop cfg score sandwich_staff (sort_by_date shifts)
        initState with
    | .error e => .error e
    | .ok st => .ok st.assignments

/-! ## Manager scheduler (src/scheduler/engine/manager.py) -/

/-- The slot loop of `ManagerScheduler.make_schedule`, lines 98-155.
Unlike the cohort and sandwich schedulers the time window and the shift
hours are computed once per day *before* this loop (the call to
`get_time_window_for_role` omits `slot_index`, so it defaults to 0),
there is no fallback path, and the shift-type tag carries no slot
number. -/
def manager_assign_slots (cfg : SchedulerConfig) (score : ScoreFn)
    (managers : List Employee) (shift : Shift) (is_weekend : Bool)
    (start_hm end_hm : String) (shift_hours : ℚ)
    (cohort_hours : List (EmpId × ℚ)) :
    Nat → SchedState → Except String SchedState
  | 0, st => .ok st
  | n + 1, st =>
    let candidates := managers.filter (fun emp =>
      can_assign_employee emp "MANAGER" shift.date shift_hours
        (st.assigned_today shift.date) st.weekly_hours cfg.hours_policy
        (capArgument cfg))
    match candidates with
    | [] =>
      .error ("Cannot assign manager for " ++ toString shift.date ++
        ": insufficient eligible staff")
    | c :: cs =>
      let first_scored :=
        (score "MANAGER" c (st.weekly_hours c.employee_id) cohort_hours, c)
      let scored := first_scored ::
        cs.map (fun emp =>
          (score "MANAGER" emp (st.weekly_hours emp.employee_id)
            cohort_hours, emp))
      let best_mgr := (select_best first_scored scored.tail).2
      let shift_type := if is_weekend then "weekend" else "weekday"
      manager_assign_slots cfg score managers shift is_weekend start_hm end_hm
        shift_hours cohort_hours n
        (commit "MANAGER" cfg.timezone shift start_hm end_hm shift_type
          shift_type shift_hours best_mgr st)

/-- The per-day loop of `ManagerScheduler.make_schedule`, lines 80-155:
the day's window (slot index 0) and shift hours are resolved here, once,
for all `needed` slots of the day. -/
def manager_day_loop (cfg : SchedulerConfig) (score : ScoreFn)
    (managers : List Employee) :
    List Shift → SchedState → Except String SchedState
  | [], st => .ok st
  | shift :: rest, st =>
    let is_weekend := is_weekend_day shift.date
    let requirements := build_requirements_for_day shift.date cfg
    let needed :=
      (dict_get requirements "MANAGER").getD (if is_weekend then 2 else 1)
    let win := get_time_window_for_role "MANAGER" shift.date cfg 0
    match hm_minutes win.1, hm_minutes win.2 with
    | some ms, some me =>
      let shift_hours : ℚ := ((me - ms : Int) : ℚ) / 60
      let cohort_hours := managers.map (fun e =>
        (e.employee_id, st.weekly_hours e.employee_id))
      match manager_assign_slots cfg score managers shift is_weekend win.1
          win.2 shift_hours cohort_hours needed.toNat st with
      | .error e => .error e
      | .ok st' => manager_day_loop cfg score managers rest st'
    | _, _ =>
      .error ("invalid time window for MANAGER on " ++ toString shift.date)

/-- `ManagerScheduler.make_schedule` (src/scheduler/engine/manager.py):
weekend shifts are scheduled first. -/
def ManagerScheduler.make_schedule (emps : List Employee)
    (shifts : List Shift) (cfg : SchedulerConfig) (score : ScoreFn) :
    Except String (List Assignment) :=
  let managers := get_by_role emps "MANAGER"
  if managers.isEmpty then
    .error "No managers available for scheduling"
  else if shifts.isEmpty then
    .error "No shifts found for week"
  else
    match manager_day_loop cfg score managers (sort_shifts_manager shifts)
        initState with
    | .error e => .error e
    | .ok st => .ok st.assignments

/-! ## Orchestrator (src/scheduler/engine/orchestrator.py) -/

/-- The `(shift_id, emp_id)` deduplication key. -/
def assignment_key (a : Assignment) : Int × EmpId :=
  (a.shift_id, a.emp_id)

/-- Calendar date of an assignment (the schedulers stamp the shift's
date into both timestamps). -/
def assignment_date (a : Assignment) : Nat :=
  a.start_time.date

/-- Duration in hours of an assignment, recomputed from its `"HH:MM"`
timestamps the way the engine computes shift hours. -/
def assignment_hours (a : Assignment) : ℚ :=
  (((hm_minutes a.end_time.hm).getD 0 - (hm_minutes a.start_time.hm).getD 0 : Int) : ℚ) / 60

/-- Total assigned hours of one employee over an assignment list. -/
def assigned_hours (l : List Assignment) (e : EmpId) : ℚ :=
  ((l.filter (fun a => a.emp_id == e)).map assignment_hours).sum

/-- The deduplication loop of `Orchestrator.build_schedule`, lines
96-109: walk the list with a `seen` set of `(shift_id, emp_id)` keys,
skipping any assignment whose key was already seen. -/
def dedup_go (seen : List (Int × EmpId)) : List Assignment → List Assignment
  | [] => []
  | a :: rest =>
    if seen.contains (assignment_key a) then dedup_go seen rest
    else a :: dedup_go (assignment_key a :: seen) rest

/-- Deduplicate, keeping the first occurrence of each
`(shift_id, emp_id)` pair. -/
def deduplicate_assignments (l : List Assignment) : List Assignment :=
  dedup_go [] l

/-- Modelled from the spec: `validate_assignment_constraints`
(src/scheduler/services/constraints.py, not among the examined
sources).  Per §4.7 it re-checks (a) no employee exceeds the effective
weekly-hour cap over all roles combined, (b) every role/date
requirement among the assigned dates is met exactly unless waived by an
enabled fallback down to its minimum-required count, (c) no
`(shift, employee)` duplicates remain; it raises on any violation. -/
def validate_assignment_constraints (assignments : List Assignment)
    (employees : List Employee) (cfg : SchedulerConfig) :
    Except String Unit :=
  let caps_ok := employees.all (fun e =>
    decide (assigned_hours assignments e.employee_id
      ≤ effective_cap (dict_get cfg.hours_policy e.primary_role)
          (capArgument cfg)))
  let dates := (assignments.map assignment_date).eraseDups
  let coverage_ok := dates.all (fun d =>
    (build_requirements_for_day d cfg).all (fun p =>
      let c := (assignments.filter (fun a =>
        a.role == some p.1 && assignment_date a == d)).length
      let fallback := (dict_get cfg.weekend_fallback p.1).getD {}
      (c : Int) == p.2
        || (fallback.enabled.getD false
            && decide (fallback.min_required.getD 1 ≤ (c : Int)))))
  let nodup_ok := decide (assignments.map assignment_key).Nodup
  if !caps_ok then .error "ValidationError: weekly hour cap exceeded"
  else if !coverage_ok then .error "ValidationError: coverage requirement not met"
  else if !nodup_ok then .error "ValidationError: duplicate assignment"
  else .ok ()

/-- `Orchestrator.build_schedule` (src/scheduler/engine/orchestrator.py)
with the default scheduler order `MANAGER, SANDWICH, BARISTA, WAITER`:
run the four role schedulers against the same roster and week,
concatenate, deduplicate by `(shift_id, emp_id)` keeping first
occurrences, validate, and return the deduplicated list.  Any scheduler
or validation error propagates. -/
def Orchestrator.build_schedule (emps : List Employee) (shifts : List Shift)
    (cfg : SchedulerConfig) (score : ScoreFn) :
    Except String (List Assignment) :=
  match ManagerScheduler.make_schedule emps shifts cfg score with
  | .error e => .error e
  | .ok l1 =>
    match SandwichScheduler.make_schedule emps shifts cfg score with
    | .error e => .error e
    | .ok l2 =>
      match CohortScheduler.make_schedule "BARISTA" emps shifts cfg score with
      | .error e => .error e
      | .ok l3 =>
        match CohortScheduler.make_schedule "WAITER" emps shifts cfg score with
        | .error e => .error e
        | .ok l4 =>
          let deduplicated := deduplicate_assignments (l1 ++ l2 ++ l3 ++ l4)
          match validate_assignment_constraints deduplicated emps cfg with
          | .error e => .error e
          | .ok _ => .ok deduplicated

/-- A score function ignoring all inputs; used as a concrete instance of
the abstract score parameter in witnesses and counterexamples. -/
def scoreZero : ScoreFn := fun _ _ _ _ => 0

/-- The first pool element whose score dominates the whole pool, i.e.
the pool member the amended tie-break rule designates. -/
def first_highest_spec (l : List (ℚ × Employee)) : Option (ℚ × Employee) :=
  l.find? (fun p => l.all (fun q => decide (q.1 ≤ p.1)))

/-! ## Properties of the deduplication pass -/

/-- The spec-side formulation of "keep only the first occurrence of each
`(shift id, employee id)` pair, preserving order": keep the head, drop
every later assignment with the head's key, recurse. -/
def spec_keep_first : List Assignment → List Assignment
  | [] => []
  | a :: rest =>
    a :: spec_keep_first
      (rest.filter (fun b => !(assignment_key b == assignment_key a)))
termination_by l => l.length
decreasing_by
  simp only [List.length_cons]
  exact Nat.lt_succ_of_le (List.length_filter_le _ _)

/-! ## The time-window policy, as amended -/

/-- First-of two optional results (the "prefer X, else Y" combinator of
the amended policy wording). -/
def firstSome {α : Type} (a b : Option α) : Option α :=
  match a with
  | some x => some x
  | none => b

/-- The staggered lookup of the amended policy: only a list-valued
entry, indexed by slot. -/
def slot_entry (spec : Option WinSpec) (i : Nat) : Option Window :=
  match spec with
  | some (WinSpec.multi ws) => ws.get? i
  | _ => none

/-- The list-or-single lookup of the amended policy: a list-valued entry
indexed by slot, or a single window dict. -/
def list_or_single_entry (spec : Option WinSpec) (i : Nat) : Option Window :=
  match spec with
  | some (WinSpec.multi ws) => ws.get? i
  | some (WinSpec.single w) => some w
  | none => none

/-- The window policy as the amended claim words it: no configured
windows → default; otherwise on a weekend prefer the slot-indexed
staggered entry, else the weekend window; any still-unmatched case —
weekends included — next tries the weekday window; only then the
config-wide default. -/
def spec_time_window (role : String) (d : Nat) (cfg : SchedulerConfig)
    (i : Nat) : String × String :=
  let rw := (dict_get cfg.role_time_windows role).getD {}
  let weekend_try : Option Window :=
    if is_weekend_day d then
      firstSome (slot_entry rw.weekend_staggered i) (list_or_single_entry rw.weekend i)
    else none
  let chosen : Option Window :=
    if rw = {} then none
    else firstSome weekend_try (list_or_single_entry rw.weekday i)
  match chosen with
  | some w => (w.start, w.end_)
  | none => (cfg.default_shift.start, cfg.default_shift.end_)

/-! ## Window provenance: every resolved window is a configured window
or the default -/

/-- All windows held by one `WinSpec` entry. -/
def winspec_windows : Option WinSpec → List Window
  | none => []
  | some (WinSpec.single w) => [w]
  | some (WinSpec.multi ws) => ws

/-- All windows of one role's time-window entry. -/
def role_windows_list (rw : RoleWindows) : List Window :=
  winspec_windows rw.weekend_staggered ++ winspec_windows rw.weekend
    ++ winspec_windows rw.weekday

/-- Every window appearing anywhere in the configuration's role
time-window table. -/
def config_windows (cfg : SchedulerConfig) : List Window :=
  (cfg.role_time_windows.map (fun p => role_windows_list p.2)).join

/-! ## The scheduler-run invariant -/

/-- The effective cap binding one role scheduler's run: role `hard_cap`,
else the cap argument the scheduler passes, else the 50-hour ceiling. -/
def schedCap (role : String) (cfg : SchedulerConfig) : ℚ :=
  effective_cap (dict_get cfg.hours_policy role) (capArgument cfg)

/-- The run invariant every role scheduler maintains: the weekly-hours
dict tracks the emitted assignments' durations, every assigned employee
stays at or below the run's effective cap, the assigned-today sets
cover the emitted assignments, no employee is assigned twice on one
date, every assigned employee comes from the scheduler's roster, every
assignment carries the scheduler's role tag, and every assignment
satisfies the scheduler-specific window property `Pwin`. -/
structure SchedInv (role : String) (cfg : SchedulerConfig) (roster : List Employee)
    (Pwin : Assignment → Prop) (st : SchedState) : Prop where
  hours_eq : ∀ e, st.weekly_hours e = assigned_hours st.assignments e
  hours_cap : ∀ a ∈ st.assignments, st.weekly_hours a.emp_id ≤ schedCap role cfg
  today_mem : ∀ a ∈ st.assignments,
    a.emp_id ∈ st.assigned_today (assignment_date a)
  nodup_ed : st.assignments.Pairwise
    (fun a b => ¬(a.emp_id = b.emp_id ∧ assignment_date a = assignment_date b))
  emp_src : ∀ a ∈ st.assignments, ∃ emp ∈ roster, emp.employee_id = a.emp_id
  role_tag : ∀ a ∈ st.assignments, a.role = some role
  winp : ∀ a ∈ st.assignments, Pwin a

/-! ## Per-scheduler window properties and loop invariants -/

/-- Window property of cohort/sandwich assignments: timestamps come from
the resolver applied to some date and slot index. -/
def cohortWinP (role : String) (cfg : SchedulerConfig) (a : Assignment) : Prop :=
  ∃ d i,
    a.start_time = ⟨d, (get_time_window_for_role role d cfg i).1, cfg.timezone⟩
    ∧ a.end_time = ⟨d, (get_time_window_for_role role d cfg i).2, cfg.timezone⟩

/-- Window property of manager assignments: timestamps come from the
resolver applied to the assignment's own date at slot index 0. -/
def managerWinP (cfg : SchedulerConfig) (a : Assignment) : Prop :=
  a.start_time = ⟨assignment_date a,
      (get_time_window_for_role "MANAGER" (assignment_date a) cfg 0).1,
      cfg.timezone⟩
  ∧ a.end_time = ⟨assignment_date a,
      (get_time_window_for_role "MANAGER" (assignment_date a) cfg 0).2,
      cfg.timezone⟩

/-! ## Characterisation of configuration validation -/

/-- The configurations `_validate_config` accepts, spelled out: positive
default duration, default start before default end in string order,
nonnegative default and override headcounts, positive weekly-hours cap,
and complete, ordered hours-policy entries.  Note what is *not* here:
`weekend_requirements` and the hard caps (`global_hard_cap`, per-role
`hard_cap`) are never examined. -/
def config_accepted (cfg : SchedulerConfig) : Prop :=
  0 < cfg.default_shift.duration_hours
  ∧ pyStrGe cfg.default_shift.start cfg.default_shift.end_ = false
  ∧ (∀ p ∈ cfg.default_requirements, 0 ≤ p.2)
  ∧ (∀ q ∈ cfg.overrides, ∀ p ∈ q.2, 0 ≤ p.2)
  ∧ 0 < cfg.hours_caps.max_hours_per_week_per_employee
  ∧ ∀ p ∈ cfg.hours_policy,
      p.2.target_min.isSome ∧ p.2.target_max.isSome ∧ p.2.hard_cap.isSome
      ∧ p.2.target_min.getD 0 ≤ p.2.target_max.getD 0

instance (cfg : SchedulerConfig) : Decidable (config_accepted cfg) := by
  unfold config_accepted
  infer_instance

/-- A configuration whose window table binds MANAGER to a given
weekend-staggered list (with arbitrary further entries `rest` and
arbitrary other keys `rw0`). -/
def with_manager_staggered (cfg : SchedulerConfig)
    (rest : List (String × RoleWindows)) (rw0 : RoleWindows)
    (ws : List Window) : SchedulerConfig :=
  {cfg with role_time_windows :=
    ("MANAGER", {rw0 with weekend_staggered := some (WinSpec.multi ws)}) :: rest}

/-- Strictly-positive window check, as a Boolean: both time strings
parse and the end is strictly after the start. -/
def window_positive_b (s e : String) : Bool :=
  match hm_minutes s, hm_minutes e with
  | some ms, some me => decide (ms < me)
  | _, _ => false

/-! ## Concrete fixtures for witnesses and counterexamples -/

def mgrW : Employee := { employee_id := 1, primary_role := "MANAGER" }

def sndW : Employee := { employee_id := 2, primary_role := "SANDWICH" }

def barW : Employee := { employee_id := 3, primary_role := "BARISTA" }

def waiW : Employee := { employee_id := 4, primary_role := "WAITER" }

def empsW : List Employee := [mgrW, sndW, barW, waiW]

def shiftW : Shift := { shift_id := 100, date := 0, week_id := "2025-W01" }

def cfgW : SchedulerConfig :=
  { default_requirements :=
      [("MANAGER", 1), ("BARISTA", 1), ("WAITER", 1), ("SANDWICH", 1)] }

def aMgrW : Assignment :=
  { shift_id := 100, emp_id := 1
    start_time := ⟨0, "07:00", "Australia/Sydney"⟩
    end_time := ⟨0, "15:00", "Australia/Sydney"⟩
    role := some "MANAGER", shift_type := some "weekday"
    day_type := some "weekday" }

def aSndW : Assignment :=
  { shift_id := 100, emp_id := 2
    start_time := ⟨0, "07:00", "Australia/Sydney"⟩
    end_time := ⟨0, "15:00", "Australia/Sydney"⟩
    role := some "SANDWICH", shift_type := some "early_prep"
    day_type := some "weekday" }

def aBarW : Assignment :=
  { shift_id := 100, emp_id := 3
    start_time := ⟨0, "07:00", "Australia/Sydney"⟩
    end_time := ⟨0, "15:00", "Australia/Sydney"⟩
    role := some "BARISTA", shift_type := some "weekday"
    day_type := some "weekday" }

def aWaiW : Assignment :=
  { shift_id := 100, emp_id := 4
    start_time := ⟨0, "07:00", "Australia/Sydney"⟩
    end_time := ⟨0, "15:00", "Australia/Sydney"⟩
    role := some "WAITER", shift_type := some "weekday"
    day_type := some "weekday" }

def outW : List Assignment := [aMgrW, aSndW, aBarW, aWaiW]

/-! ## C7 -/

def e5C7 : Employee := { employee_id := 5, primary_role := "BARISTA" }

def e3C7 : Employee := { employee_id := 3, primary_role := "BARISTA" }

def cfgC7 : SchedulerConfig := { default_requirements := [("BARISTA", 1)] }

def shC7 : Shift := { shift_id := 7, date := 0 }

/-! ## C6 -/

def cfgC6 : SchedulerConfig :=
  { role_time_windows :=
      [("BARISTA", { weekday := some (WinSpec.single ⟨"09:00", "17:00"⟩) })] }

/-! ## C5 -/

def cfgC5 : SchedulerConfig :=
  { weekend_requirements := [("MANAGER", -1)]
    global_hard_cap := some (-5)
    hours_policy :=
      [("BARISTA",
        { target_min := some 10, target_max := some 20, hard_cap := some 0 })] }

/-! ## C1 -/

def mgrC1 : Employee := { employee_id := 1, primary_role := "MANAGER" }

def shC1 : Shift := { shift_id := 10, date := 0 }

def cfgC1 : SchedulerConfig :=
  { default_requirements := [("MANAGER", 0)], global_hard_cap := some (-5) }

/-! ## C8 -/

def barC8 : Employee := { employee_id := 2, primary_role := "BARISTA" }

def shC8 : Shift := { shift_id := 8, date := 0 }

def cfgC8 : SchedulerConfig :=
  { default_requirements := [("BARISTA", 1)]
    role_time_windows :=
      [("BARISTA", { weekday := some (WinSpec.single ⟨"15:00", "07:00"⟩) })] }

def aC8 : Assignment :=
  { shift_id := 8, emp_id := 2
    start_time := ⟨0, "15:00", "Australia/Sydney"⟩
    end_time := ⟨0, "07:00", "Australia/Sydney"⟩
    role := some "BARISTA", shift_type := some "weekday"
    day_type := some "weekday" }

/-! ## C9 -/

def mgr9 : Employee := { employee_id := 11, primary_role := "MANAGER" }

def mgr9b : Employee := { employee_id := 12, primary_role := "MANAGER" }

def sh9 : Shift := { shift_id := 9, date := 5 }

def a9a : Assignment :=
  { shift_id := 9, emp_id := 11
    start_time := ⟨5, "07:00", "Australia/Sydney"⟩
    end_time := ⟨5, "15:00", "Australia/Sydney"⟩
    role := some "MANAGER", shift_type := some "weekend"
    day_type := some "weekend" }

def a9b : Assignment :=
  { shift_id := 9, emp_id := 12
    start_time := ⟨5, "07:00", "Australia/Sydney"⟩
    end_time := ⟨5, "15:00", "Australia/Sydney"⟩
    role := some "MANAGER", shift_type := some "weekend"
    day_type := some "weekend" }

/-! ## C4 -/

def sndC4 : Employee := { employee_id := 7, primary_role := "SANDWICH" }

def shC4 : Shift := { shift_id := 4, date := 5 }

def cfgC4 : SchedulerConfig :=
  { hours_policy :=
      [("SANDWICH",
        { target_min := some 0, target_max := some 0, hard_cap := some 0 })]
    weekend_fallback :=
      [("SANDWICH", { enabled := some true, min_required := some 0 })] }

def barC4 : Employee := { employee_id := 8, primary_role := "BARISTA" }

def shC4w : Shift := { shift_id := 5, date := 5 }

def cfgC4w : SchedulerConfig :=
  { hours_policy :=
      [("BARISTA",
        { target_min := some 0, target_max := some 0, hard_cap := some 0 })]
    weekend_fallback :=
      [("BARISTA", { enabled := some true, min_required := some 0 })] }

/-! ## Properties of the stable descending sort / candidate selection -/

/-- `insert_desc` never produces the empty list. -/
theorem insert_desc_ne_nil (x : ℚ × Employee) (l : List (ℚ × Employee)) :
    insert_desc x l ≠ [] := by
  cases l with
  | nil => simp [insert_desc]
  | cons y ys =>
    unfold insert_desc
    split <;> simp

/-- `sort_desc` returns `[]` only on `[]`. -/
theorem sort_desc_eq_nil {l : List (ℚ × Employee)}
    (h : sort_desc l = []) : l = [] := by
  cases l with
  | nil => rfl
  | cons x xs => exact absurd h (insert_desc_ne_nil x (sort_desc xs))

/-- The head of the stable descending sort is the first score-maximal
element of the input: the input splits as `u ++ b :: v` with every
element of the prefix `u` scoring strictly below `b` and every element
at most `b`. -/
theorem sort_desc_head_decomp :
    ∀ (l : List (ℚ × Employee)) (b : ℚ × Employee) (t : List (ℚ × Employee)),
      sort_desc l = b :: t →
      ∃ u v, l = u ++ b :: v ∧ (∀ y ∈ u, y.1 < b.1) ∧ ∀ y ∈ l, y.1 ≤ b.1 := by
  intro l
  induction l with
  | nil => intro b t h; simp [sort_desc] at h
  | cons x xs ih =>
    intro b t h
    rw [sort_desc] at h
    cases hxs : sort_desc xs with
    | nil =>
      have hx : xs = [] := sort_desc_eq_nil hxs
      subst hx
      rw [hxs] at h
      simp [insert_desc] at h
      refine ⟨[], [], ?_, ?_, ?_⟩ <;> simp [h.1]
    | cons b' t' =>
      rw [hxs] at h
      rw [insert_desc] at h
      obtain ⟨u, v, hsplit, hu, hall⟩ := ih b' t' hxs
      by_cases hgt : b'.1 > x.1
      · rw [if_pos hgt] at h
        have hb : b' = b := (List.cons_eq_cons.mp h).1
        subst hb
        refine ⟨x :: u, v, ?_, ?_, ?_⟩
        · simp [hsplit]
        · intro y hy
          rcases List.mem_cons.mp hy with rfl | hy
          · exact hgt
          · exact hu y hy
        · intro y hy
          rcases List.mem_cons.mp hy with rfl | hy
          · exact le_of_lt hgt
          · exact hall y hy
      · rw [if_neg hgt] at h
        have hb : x = b := (List.cons_eq_cons.mp h).1
        subst hb
        refine ⟨[], xs, by simp, by simp, ?_⟩
        intro y hy
        rcases List.mem_cons.mp hy with rfl | hy
        · exact le_refl _
        · exact le_trans (hall y hy) (le_of_not_gt hgt)

/-- The selected candidate is a member of the scored pool. -/
theorem select_best_mem (x : ℚ × Employee) (xs : List (ℚ × Employee)) :
    select_best x xs ∈ x :: xs := by
  unfold select_best
  cases hs : sort_desc (x :: xs) with
  | nil => exact absurd (sort_desc_eq_nil hs) (by simp)
  | cons b t =>
    obtain ⟨u, v, hsplit, _, _⟩ := sort_desc_head_decomp _ b t hs
    simp only [List.headD_cons]
    rw [hsplit]
    simp

/-- The selected candidate's score bounds every pool member's score. -/
theorem select_best_le (x : ℚ × Employee) (xs : List (ℚ × Employee)) :
    ∀ y ∈ x :: xs, y.1 ≤ (select_best x xs).1 := by
  unfold select_best
  cases hs : sort_desc (x :: xs) with
  | nil => exact absurd (sort_desc_eq_nil hs) (by simp)
  | cons b t =>
    obtain ⟨u, v, hsplit, _, hall⟩ := sort_desc_head_decomp _ b t hs
    simp only [List.headD_cons]
    exact hall

/-- Helper: `find?` over a prefix of failures lands on the marked
element. -/
theorem find?_prefix_first {α : Type} (p : α → Bool) :
    ∀ (u : List α) (b : α) (v : List α), (∀ y ∈ u, p y = false) → p b = true →
      (u ++ b :: v).find? p = some b := by
  intro u
  induction u with
  | nil => intro b v _ hb; simp [List.find?, hb]
  | cons a as ih =>
    intro b v hu hb
    have ha : p a = false := hu a (by simp)
    simp only [List.cons_append, List.find?, ha]
    exact ih b v (fun y hy => hu y (by simp [hy])) hb

/-- Bridge: the head of the stable descending sort is exactly the first
pool element whose score dominates the pool. -/
theorem select_best_eq_first_highest (x : ℚ × Employee)
    (xs : List (ℚ × Employee)) :
    first_highest_spec (x :: xs) = some (select_best x xs) := by
  unfold first_highest_spec
  cases hs : sort_desc (x :: xs) with
  | nil => exact absurd (sort_desc_eq_nil hs) (by simp)
  | cons b t =>
    obtain ⟨u, v, hsplit, hu, hall⟩ := sort_desc_head_decomp _ b t hs
    have hb : select_best x xs = b := by
      unfold select_best
      rw [hs]
      rfl
    rw [hb]
    have hbmem : b ∈ x :: xs := by rw [hsplit]; simp
    have hpb : ((x :: xs).all fun q => decide (q.1 ≤ b.1)) = true := by
      simp only [List.all_eq_true, decide_eq_true_eq]
      exact hall
    have hpu : ∀ y ∈ u, ((x :: xs).all fun q => decide (q.1 ≤ y.1)) = false := by
      intro y hy
      have hlt : y.1 < b.1 := hu y hy
      rw [List.all_eq_false]
      exact ⟨b, hbmem, by simpa using not_le_of_lt hlt⟩
    calc (x :: xs).find? (fun p => (x :: xs).all fun q => decide (q.1 ≤ p.1))
        = (u ++ b :: v).find? (fun p => (x :: xs).all fun q => decide (q.1 ≤ p.1)) := by
          rw [← hsplit]
      _ = some b := find?_prefix_first _ u b v hpu hpb

/-- The deduplication loop only ever drops elements. -/
theorem dedup_go_sublist : ∀ (seen : List (Int × EmpId)) (l : List Assignment),
    List.Sublist (dedup_go seen l) l := by
  intro seen l
  induction l generalizing seen with
  | nil => simp [dedup_go]
  | cons a rest ih =>
    rw [dedup_go]
    split
    · exact (ih seen).cons a
    · exact (ih (assignment_key a :: seen)).cons₂ a

/-- The loop with a `seen` set equals the spec formulation applied to
the input with already-seen keys dropped. -/
theorem dedup_go_eq_spec : ∀ (l : List Assignment) (seen : List (Int × EmpId)),
    dedup_go seen l
      = spec_keep_first (l.filter (fun a => !(seen.contains (assignment_key a)))) := by
  intro l
  induction l with
  | nil => intro seen; simp [dedup_go, spec_keep_first]
  | cons a rest ih =>
    intro seen
    rw [dedup_go]
    by_cases hs : seen.contains (assignment_key a)
    · rw [if_pos hs]
      rw [ih seen]
      have hsm : assignment_key a ∈ seen := by simpa using hs
      have : (List.filter (fun x => !seen.contains (assignment_key x)) (a :: rest))
          = List.filter (fun x => !seen.contains (assignment_key x)) rest := by
        rw [List.filter_cons]
        simp [hsm]
      rw [this]
    · rw [if_neg hs]
      have hsm : assignment_key a ∉ seen := by simpa using hs
      have hfa : (List.filter (fun x => !seen.contains (assignment_key x)) (a :: rest))
          = a :: List.filter (fun x => !seen.contains (assignment_key x)) rest := by
        rw [List.filter_cons]
        simp [hsm]
      rw [hfa, spec_keep_first, ih (assignment_key a :: seen), List.filter_filter]
      have hpred : List.filter
            (fun a1 => !(assignment_key a :: seen).contains (assignment_key a1)) rest
          = List.filter
            (fun a1 => !(assignment_key a1 == assignment_key a)
              && !(seen.contains (assignment_key a1))) rest :=
        List.filter_congr (fun b _ => by
          by_cases h1 : assignment_key b = assignment_key a <;>
            by_cases h2 : assignment_key b ∈ seen <;>
            simp [List.contains_cons, h1, h2])
      rw [hpred]

/-- Deduplication from an empty `seen` set is exactly the keep-first
filter. -/
theorem deduplicate_eq_spec (l : List Assignment) :
    deduplicate_assignments l = spec_keep_first l := by
  unfold deduplicate_assignments
  rw [dedup_go_eq_spec]
  congr 1
  simp

/-- After deduplication, no key occurs twice, and no key from the `seen`
set occurs at all. -/
theorem dedup_go_keys_nodup : ∀ (l : List Assignment) (seen : List (Int × EmpId)),
    ((dedup_go seen l).map assignment_key).Nodup
      ∧ ∀ k ∈ (dedup_go seen l).map assignment_key, !(seen.contains k) := by
  intro l
  induction l with
  | nil => intro seen; simp [dedup_go]
  | cons a rest ih =>
    intro seen
    rw [dedup_go]
    by_cases hs : seen.contains (assignment_key a)
    · rw [if_pos hs]; exact ih seen
    · rw [if_neg hs]
      obtain ⟨hnd, hfresh⟩ := ih (assignment_key a :: seen)
      constructor
      · simp only [List.map_cons, List.nodup_cons]
        refine ⟨?_, hnd⟩
        intro hmem
        have := hfresh _ hmem
        simp [List.contains_cons] at this
      · intro k hk
        simp only [List.map_cons, List.mem_cons] at hk
        rcases hk with rfl | hk
        · simpa using hs
        · have := hfresh k hk
          simp [List.contains_cons] at this
          simpa using this.2

/-- The source resolver implements exactly the amended cascade. -/
theorem get_time_window_eq_spec (role : String) (d : Nat)
    (cfg : SchedulerConfig) (i : Nat) :
    get_time_window_for_role role d cfg i = spec_time_window role d cfg i := by
  unfold get_time_window_for_role spec_time_window
  rcases hrw : (dict_get cfg.role_time_windows role).getD {} with ⟨stag, wkend, wkday⟩
  by_cases hempty : (⟨stag, wkend, wkday⟩ : RoleWindows) = {}
  · simp [hempty]
  · by_cases hwe : is_weekend_day d <;>
      rcases stag with _ | ⟨w | ws⟩ <;>
      rcases wkend with _ | ⟨w2 | ws2⟩ <;>
      rcases wkday with _ | ⟨w3 | ws3⟩ <;>
      (try rcases hg : ws.get? i with _ | w0) <;>
      (try rcases hg2 : ws2.get? i with _ | w20) <;>
      (try rcases hg3 : ws3.get? i with _ | w30) <;>
      simp_all [slot_entry, list_or_single_entry, firstSome, List.getElem?_eq_none]

theorem slot_entry_mem {s : Option WinSpec} {i : Nat} {w : Window}
    (h : slot_entry s i = some w) : w ∈ winspec_windows s := by
  rcases s with _ | ⟨w1 | ws⟩ <;> simp [slot_entry] at h <;>
    simp [winspec_windows]
  exact List.getElem?_mem h

theorem list_or_single_entry_mem {s : Option WinSpec} {i : Nat} {w : Window}
    (h : list_or_single_entry s i = some w) : w ∈ winspec_windows s := by
  rcases s with _ | ⟨w1 | ws⟩ <;> simp [list_or_single_entry] at h <;>
    simp [winspec_windows]
  · exact h.symm
  · exact List.getElem?_mem h

theorem firstSome_eq_some {α : Type} {a b : Option α} {w : α}
    (h : firstSome a b = some w) : a = some w ∨ b = some w := by
  rcases a with _ | x
  · exact Or.inr h
  · exact Or.inl h

theorem dict_get_mem_values {κ α : Type} [BEq κ] {l : List (κ × α)} {k : κ}
    {v : α} (h : dict_get l k = some v) : v ∈ l.map (fun p => p.2) := by
  unfold dict_get at h
  rcases hf : l.find? (fun p => p.1 == k) with _ | p
  · rw [hf] at h; cases h
  · rw [hf] at h
    have h : p.2 = v := Option.some.inj h
    have hp : p ∈ l := List.mem_of_find?_eq_some hf
    rw [← h]
    exact List.mem_map_of_mem _ hp

/-- Every window the resolver returns is either the config-wide default
pair or one of the configured role windows. -/
theorem window_provenance (role : String) (d : Nat) (cfg : SchedulerConfig)
    (i : Nat) :
    get_time_window_for_role role d cfg i
        = (cfg.default_shift.start, cfg.default_shift.end_)
      ∨ ∃ w ∈ config_windows cfg,
          get_time_window_for_role role d cfg i = (w.start, w.end_) := by
  rw [get_time_window_eq_spec]
  unfold spec_time_window
  cases hq : dict_get cfg.role_time_windows role with
  | none => left; simp
  | some rw =>
    have hrwmem : rw ∈ cfg.role_time_windows.map (fun p => p.2) :=
      dict_get_mem_values hq
    have hwin : ∀ w ∈ role_windows_list rw, w ∈ config_windows cfg := by
      intro w hw
      unfold config_windows
      rw [List.mem_join]
      refine ⟨role_windows_list rw, ?_, hw⟩
      rcases List.mem_map.mp hrwmem with ⟨p, hp, hpe⟩
      exact List.mem_map.mpr ⟨p, hp, by rw [hpe]⟩
    simp only [Option.getD_some]
    by_cases hempty : rw = {}
    · left; simp [hempty]
    · set wt : Option Window :=
        (if is_weekend_day d then
          firstSome (slot_entry rw.weekend_staggered i)
            (list_or_single_entry rw.weekend i)
        else none) with hwt
      cases hc : firstSome wt (list_or_single_entry rw.weekday i) with
      | none => left; simp [hempty, hc]
      | some w =>
        right
        refine ⟨w, ?_, by simp [hempty, hc]⟩
        apply hwin
        unfold role_windows_list
        rcases firstSome_eq_some hc with hw | hw
        · rw [hwt] at hw
          by_cases hwe : is_weekend_day d
          · rw [if_pos hwe] at hw
            rcases firstSome_eq_some hw with hw2 | hw2
            · exact List.mem_append_left _
                (List.mem_append_left _ (slot_entry_mem hw2))
            · exact List.mem_append_left _
                (List.mem_append_right _ (list_or_single_entry_mem hw2))
          · rw [if_neg hwe] at hw; cases hw
        · exact List.mem_append_right _ (list_or_single_entry_mem hw)

theorem assigned_hours_nil (e : EmpId) : assigned_hours [] e = 0 := by
  simp [assigned_hours]

theorem assigned_hours_append (l : List Assignment) (a : Assignment) (e : EmpId) :
    assigned_hours (l ++ [a]) e
      = assigned_hours l e + (if a.emp_id = e then assignment_hours a else 0) := by
  unfold assigned_hours
  rw [List.filter_append, List.map_append, List.sum_append]
  congr 1
  by_cases h : a.emp_id = e
  · simp [List.filter, h]
  · have hb : (a.emp_id == e) = false := by simpa using h
    simp [List.filter, h, hb]

theorem assigned_hours_of_not_mem {l : List Assignment} {e : EmpId}
    (h : ∀ a ∈ l, a.emp_id ≠ e) : assigned_hours l e = 0 := by
  unfold assigned_hours
  have : l.filter (fun a => a.emp_id == e) = [] := by
    rw [List.filter_eq_nil_iff]
    intro a ha
    simpa using h a ha
  rw [this]
  simp

theorem SchedInv.initial (role : String) (cfg : SchedulerConfig)
    (roster : List Employee) (Pwin : Assignment → Prop) :
    SchedInv role cfg roster Pwin initState := by
  refine ⟨?_, ?_, ?_, ?_, ?_, ?_, ?_⟩ <;> simp [initState, assigned_hours_nil]

/-- Committing an eligible employee preserves the invariant. -/
theorem SchedInv.commit_step {role : String} {cfg : SchedulerConfig}
    {roster : List Employee} {Pwin : Assignment → Prop}
    (shift : Shift) (start_hm end_hm stype dtype : String) (shift_hours : ℚ)
    (b : Employee) (st : SchedState) (ms me : Int)
    (hI : SchedInv role cfg roster Pwin st)
    (hb : b ∈ roster)
    (hca : can_assign_employee b role shift.date shift_hours
      (st.assigned_today shift.date) st.weekly_hours cfg.hours_policy
      (capArgument cfg) = true)
    (hms : hm_minutes start_hm = some ms)
    (hme : hm_minutes end_hm = some me)
    (hsh : shift_hours = ((me - ms : Int) : ℚ) / 60)
    (hP : Pwin (mk_assignment role cfg.timezone shift start_hm end_hm stype
      dtype b)) :
    SchedInv role cfg roster Pwin
      (commit role cfg.timezone shift start_hm end_hm stype dtype shift_hours
        b st) := by
  have hca' := hca
  unfold can_assign_employee at hca'
  simp only [Bool.and_eq_true, Bool.not_eq_true', decide_eq_true_eq,
    beq_iff_eq] at hca'
  obtain ⟨⟨hnotin, hrole⟩, hcap⟩ := hca'
  have hnotin' : b.employee_id ∉ st.assigned_today shift.date := by
    simpa using hnotin
  have hhours : assignment_hours
      (mk_assignment role cfg.timezone shift start_hm end_hm stype dtype b)
        = shift_hours := by
    unfold assignment_hours mk_assignment create_datetime_from_date_and_time
    simp [hms, hme, hsh]
  have hdate : assignment_date
      (mk_assignment role cfg.timezone shift start_hm end_hm stype dtype b)
        = shift.date := rfl
  have hemp : (mk_assignment role cfg.timezone shift start_hm end_hm stype
      dtype b).emp_id = b.employee_id := rfl
  refine ⟨?_, ?_, ?_, ?_, ?_, ?_, ?_⟩
  · -- hours_eq
    intro e
    simp only [commit]
    rw [assigned_hours_append, ← hI.hours_eq e]
    by_cases he : e = b.employee_id
    · subst he
      rw [hemp]
      simp [hhours]
    · have h2 : ¬ ((mk_assignment role cfg.timezone shift start_hm end_hm
          stype dtype b).emp_id = e) := by
        rw [hemp]; exact fun hc => he hc.symm
      have h3 : (e == b.employee_id) = false := by simpa using he
      simp [h2, h3]
  · -- hours_cap
    intro a ha
    simp only [commit] at ha ⊢
    rcases List.mem_append.mp ha with ha | ha
    · by_cases he : a.emp_id = b.employee_id
      · rw [he]
        simpa [schedCap] using hcap
      · have h3 : (a.emp_id == b.employee_id) = false := by simpa using he
        simp only [h3, if_false]
        exact hI.hours_cap a ha
    · have ha' : a = mk_assignment role cfg.timezone shift start_hm end_hm
        stype dtype b := by simpa using ha
      subst ha'
      rw [hemp]
      simpa [schedCap] using hcap
  · -- today_mem
    intro a ha
    simp only [commit] at ha ⊢
    rcases List.mem_append.mp ha with ha | ha
    · have hmem := hI.today_mem a ha
      by_cases hd : assignment_date a = shift.date
      · simp only [hd, beq_self_eq_true, if_true]
        rw [← hd]
        exact List.mem_cons_of_mem _ hmem
      · have h3 : (assignment_date a == shift.date) = false := by simpa using hd
        simp only [h3, if_false]
        exact hmem
    · have ha' : a = mk_assignment role cfg.timezone shift start_hm end_hm
        stype dtype b := by simpa using ha
      subst ha'
      rw [hdate, hemp]
      simp
  · -- nodup_ed
    simp only [commit]
    rw [List.pairwise_append]
    refine ⟨hI.nodup_ed, by simp, ?_⟩
    intro x hx y hy
    have hy' : y = mk_assignment role cfg.timezone shift start_hm end_hm
      stype dtype b := by simpa using hy
    subst hy'
    rw [hemp, hdate]
    rintro ⟨hxe, hxd⟩
    have := hI.today_mem x hx
    rw [hxd, hxe] at this
    exact hnotin' this
  · -- emp_src
    intro a ha
    simp only [commit] at ha
    rcases List.mem_append.mp ha with ha | ha
    · exact hI.emp_src a ha
    · have ha' : a = mk_assignment role cfg.timezone shift start_hm end_hm
        stype dtype b := by simpa using ha
      subst ha'
      exact ⟨b, hb, hemp.symm⟩
  · -- role_tag
    intro a ha
    simp only [commit] at ha
    rcases List.mem_append.mp ha with ha | ha
    · exact hI.role_tag a ha
    · have ha' : a = mk_assignment role cfg.timezone shift start_hm end_hm
        stype dtype b := by simpa using ha
      subst ha'
      rfl
  · -- winp
    intro a ha
    simp only [commit] at ha
    rcases List.mem_append.mp ha with ha | ha
    · exact hI.winp a ha
    · have ha' : a = mk_assignment role cfg.timezone shift start_hm end_hm
        stype dtype b := by simpa using ha
      subst ha'
      exact hP

/-- The employee selected from a scored pool is a pool member. -/
theorem select_from_scored_mem (f : Employee → ℚ) (c : Employee)
    (cs : List Employee) :
    (select_best (f c, c)
      (List.tail ((f c, c) :: cs.map (fun e => (f e, e))))).2 ∈ c :: cs := by
  simp only [List.tail_cons]
  have h := select_best_mem (f c, c) (cs.map (fun e => (f e, e)))
  have h2 : select_best (f c, c) (cs.map (fun e => (f e, e)))
      ∈ (c :: cs).map (fun e => (f e, e)) := by simpa using h
  rcases List.mem_map.mp h2 with ⟨e, he, hfe⟩
  have h3 : (select_best (f c, c) (cs.map (fun e => (f e, e)))).2 = e := by
    rw [← hfe]
  rw [h3]
  exact he

/-- The cohort slot loop preserves the run invariant. -/
theorem cohort_slots_inv (role : String) (cfg : SchedulerConfig)
    (score : ScoreFn) (roster : List Employee) (shift : Shift) (iw : Bool)
    (ch : List (EmpId × ℚ)) :
    ∀ (n idx : Nat) (st st' : SchedState),
      SchedInv role cfg roster (cohortWinP role cfg) st →
      cohort_assign_slots role cfg score roster shift iw ch n idx st = .ok st' →
      SchedInv role cfg roster (cohortWinP role cfg) st' := by
  intro n
  induction n with
  | zero =>
    intro idx st st' hI h
    rw [cohort_assign_slots] at h
    cases h
    exact hI
  | succ n ih =>
    intro idx st st' hI h
    simp only [cohort_assign_slots] at h
    split at h
    case h_2 => cases h
    case h_1 ms me hms hme =>
      split at h
      case h_1 hcand =>
        split at h
        · exact ih (idx + 1) st st' hI h
        · cases h
      case h_2 c cs hcand =>
        refine ih (idx + 1) _ st' ?_ h
        have hmem : (select_best
            (score role c (st.weekly_hours c.employee_id) ch, c)
            ((score role c (st.weekly_hours c.employee_id) ch, c) ::
              List.map (fun emp =>
                (score role emp (st.weekly_hours emp.employee_id) ch, emp))
                cs).tail).2 ∈ c :: cs :=
          select_from_scored_mem
            (fun e => score role e (st.weekly_hours e.employee_id) ch) c cs
        rw [← hcand] at hmem
        obtain ⟨hbro, hbca⟩ := List.mem_filter.mp hmem
        exact SchedInv.commit_step shift _ _ _ _ _ _ st ms me hI hbro hbca
          hms hme rfl ⟨shift.date, idx, rfl, rfl⟩

/-- The cohort day loop preserves the run invariant. -/
theorem cohort_days_inv (role : String) (cfg : SchedulerConfig)
    (score : ScoreFn) (roster : List Employee) :
    ∀ (shifts : List Shift) (st st' : SchedState),
      SchedInv role cfg roster (cohortWinP role cfg) st →
      cohort_day_loop role cfg score roster shifts st = .ok st' →
      SchedInv role cfg roster (cohortWinP role cfg) st' := by
  intro shifts
  induction shifts with
  | nil =>
    intro st st' hI h
    rw [cohort_day_loop] at h
    cases h
    exact hI
  | cons shift rest ih =>
    intro st st' hI h
    simp only [cohort_day_loop] at h
    split at h
    · cases h
    case h_2 st1 heq =>
      exact ih st1 st' (cohort_slots_inv role cfg score roster shift _ _ _ _
        st st1 hI heq) h

/-- A successful cohort run's output satisfies the run invariant. -/
theorem cohort_make_inv {role : String} {emps : List Employee}
    {shifts : List Shift} {cfg : SchedulerConfig} {score : ScoreFn}
    {l : List Assignment}
    (h : CohortScheduler.make_schedule role emps shifts cfg score = .ok l) :
    ∃ st : SchedState, l = st.assignments
      ∧ SchedInv role.toUpper cfg (get_by_role emps role.toUpper)
          (cohortWinP role.toUpper cfg) st := by
  simp only [CohortScheduler.make_schedule] at h
  split at h
  · cases h
  · split at h
    · cases h
    · split at h
      · cases h
      · split at h
        · cases h
        case h_2 st heq =>
          cases h
          exact ⟨st, rfl, cohort_days_inv _ cfg score _ _ initState st
            (SchedInv.initial _ cfg _ _) heq⟩

/-- The sandwich slot loop preserves the run invariant. -/
theorem sandwich_slots_inv (cfg : SchedulerConfig) (score : ScoreFn)
    (roster : List Employee) (shift : Shift) (iw : Bool)
    (ch : List (EmpId × ℚ)) :
    ∀ (n idx : Nat) (st st' : SchedState),
      SchedInv "SANDWICH" cfg roster (cohortWinP "SANDWICH" cfg) st →
      sandwich_assign_slots cfg score roster shift iw ch n idx st = .ok st' →
      SchedInv "SANDWICH" cfg roster (cohortWinP "SANDWICH" cfg) st' := by
  intro n
  induction n with
  | zero =>
    intro idx st st' hI h
    rw [sandwich_assign_slots] at h
    cases h
    exact hI
  | succ n ih =>
    intro idx st st' hI h
    simp only [sandwich_assign_slots] at h
    split at h
    case h_2 => cases h
    case h_1 ms me hms hme =>
      split at h
      case h_1 hcand => cases h
      case h_2 c cs hcand =>
        refine ih (idx + 1) _ st' ?_ h
        have hmem : (select_best
            (score "SANDWICH" c (st.weekly_hours c.employee_id) ch, c)
            ((score "SANDWICH" c (st.weekly_hours c.employee_id) ch, c) ::
              List.map (fun emp =>
                (score "SANDWICH" emp (st.weekly_hours emp.employee_id) ch,
                  emp)) cs).tail).2 ∈ c :: cs :=
          select_from_scored_mem
            (fun e => score "SANDWICH" e (st.weekly_hours e.employee_id) ch)
            c cs
        rw [← hcand] at hmem
        obtain ⟨hbro, hbca⟩ := List.mem_filter.mp hmem
        exact SchedInv.commit_step shift _ _ _ _ _ _ st ms me hI hbro hbca
          hms hme rfl ⟨shift.date, idx, rfl, rfl⟩

/-- The sandwich day loop preserves the run invariant. -/
theorem sandwich_days_inv (cfg : SchedulerConfig) (score : ScoreFn)
    (roster : List Employee) :
    ∀ (shifts : List Shift) (st st' : SchedState),
      SchedInv "SANDWICH" cfg roster (cohortWinP "SANDWICH" cfg) st →
      sandwich_day_loop cfg score roster shifts st = .ok st' →
      SchedInv "SANDWICH" cfg roster (cohortWinP "SANDWICH" cfg) st' := by
  intro shifts
  induction shifts with
  | nil =>
    intro st st' hI h
    rw [sandwich_day_loop] at h
    cases h
    exact hI
  | cons shift rest ih =>
    intro st st' hI h
    simp only [sandwich_day_loop] at h
    split at h
    · cases h
    case h_2 st1 heq =>
      exact ih st1 st' (sandwich_slots_inv cfg score roster shift _ _ _ _
        st st1 hI heq) h

/-- A successful sandwich run's output satisfies the run invariant. -/
theorem sandwich_make_inv {emps : List Employee} {shifts : List Shift}
    {cfg : SchedulerConfig} {score : ScoreFn} {l : List Assignment}
    (h : SandwichScheduler.make_schedule emps shifts cfg score = .ok l) :
    ∃ st : SchedState, l = st.assignments
      ∧ SchedInv "SANDWICH" cfg (get_by_role emps "SANDWICH")
          (cohortWinP "SANDWICH" cfg) st := by
  simp only [SandwichScheduler.make_schedule] at h
  split at h
  · cases h
  · split at h
    · cases h
    · split at h
      · cases h
      case h_2 st heq =>
        cases h
        exact ⟨st, rfl, sandwich_days_inv cfg score _ _ initState st
          (SchedInv.initial _ cfg _ _) heq⟩

/-- The manager slot loop preserves the run invariant, given that the
day's window was resolved at slot index 0. -/
theorem manager_slots_inv (cfg : SchedulerConfig) (score : ScoreFn)
    (managers : List Employee) (shift : Shift) (iw : Bool)
    (start_hm end_hm : String) (ms me : Int) (ch : List (EmpId × ℚ))
    (hms : hm_minutes start_hm = some ms)
    (hme : hm_minutes end_hm = some me)
    (hwin : (start_hm, end_hm)
      = get_time_window_for_role "MANAGER" shift.date cfg 0) :
    ∀ (n : Nat) (st st' : SchedState),
      SchedInv "MANAGER" cfg managers (managerWinP cfg) st →
      manager_assign_slots cfg score managers shift iw start_hm end_hm
        (((me - ms : Int) : ℚ) / 60) ch n st = .ok st' →
      SchedInv "MANAGER" cfg managers (managerWinP cfg) st' := by
  have h1 : start_hm
      = (get_time_window_for_role "MANAGER" shift.date cfg 0).1 := by
    rw [← hwin]
  have h2 : end_hm
      = (get_time_window_for_role "MANAGER" shift.date cfg 0).2 := by
    rw [← hwin]
  intro n
  induction n with
  | zero =>
    intro st st' hI h
    rw [manager_assign_slots] at h
    cases h
    exact hI
  | succ n ih =>
    intro st st' hI h
    simp only [manager_assign_slots] at h
    split at h
    case h_1 hcand => cases h
    case h_2 c cs hcand =>
      refine ih _ st' ?_ h
      have hmem : (select_best
          (score "MANAGER" c (st.weekly_hours c.employee_id) ch, c)
          ((score "MANAGER" c (st.weekly_hours c.employee_id) ch, c) ::
            List.map (fun emp =>
              (score "MANAGER" emp (st.weekly_hours emp.employee_id) ch,
                emp)) cs).tail).2 ∈ c :: cs :=
        select_from_scored_mem
          (fun e => score "MANAGER" e (st.weekly_hours e.employee_id) ch) c cs
      rw [← hcand] at hmem
      obtain ⟨hbro, hbca⟩ := List.mem_filter.mp hmem
      refine SchedInv.commit_step shift _ _ _ _ _ _ st ms me hI hbro hbca
        hms hme rfl ?_
      constructor
      · show DateTime.mk shift.date start_hm cfg.timezone = _
        rw [h1]
        rfl
      · show DateTime.mk shift.date end_hm cfg.timezone = _
        rw [h2]
        rfl

/-- The manager day loop preserves the run invariant. -/
theorem manager_days_inv (cfg : SchedulerConfig) (score : ScoreFn)
    (managers : List Employee) :
    ∀ (shifts : List Shift) (st st' : SchedState),
      SchedInv "MANAGER" cfg managers (managerWinP cfg) st →
      manager_day_loop cfg score managers shifts st = .ok st' →
      SchedInv "MANAGER" cfg managers (managerWinP cfg) st' := by
  intro shifts
  induction shifts with
  | nil =>
    intro st st' hI h
    rw [manager_day_loop] at h
    cases h
    exact hI
  | cons shift rest ih =>
    intro st st' hI h
    simp only [manager_day_loop] at h
    split at h
    case h_2 => cases h
    case h_1 ms me hms hme =>
      split at h
      · cases h
      case h_2 st1 heq =>
        exact ih st1 st' (manager_slots_inv cfg score managers shift _ _ _
          ms me _ hms hme rfl _ st st1 hI heq) h

/-- A successful manager run's output satisfies the run invariant. -/
theorem manager_make_inv {emps : List Employee} {shifts : List Shift}
    {cfg : SchedulerConfig} {score : ScoreFn} {l : List Assignment}
    (h : ManagerScheduler.make_schedule emps shifts cfg score = .ok l) :
    ∃ st : SchedState, l = st.assignments
      ∧ SchedInv "MANAGER" cfg (get_by_role emps "MANAGER")
          (managerWinP cfg) st := by
  simp only [ManagerScheduler.make_schedule] at h
  split at h
  · cases h
  · split at h
    · cases h
    · split at h
      · cases h
      case h_2 st heq =>
        cases h
        exact ⟨st, rfl, manager_days_inv cfg score _ _ initState st
          (SchedInv.initial _ cfg _ _) heq⟩

theorem validate_ok_iff (cfg : SchedulerConfig) :
    _validate_config cfg = .ok () ↔ config_accepted cfg := by
  unfold _validate_config config_accepted
  constructor
  · intro h
    split at h
    · cases h
    · split at h
      · cases h
      · split at h
        · cases h
        case h_2 hreq =>
          split at h
          · cases h
          case h_2 hov =>
            split at h
            · cases h
            · split at h
              · cases h
              case h_2 hpol =>
                have hreq' := List.find?_eq_none.mp hreq
                have hov' := List.findSome?_eq_none_iff.mp hov
                have hpol' := List.findSome?_eq_none_iff.mp hpol
                refine ⟨by omega, by simpa using ‹¬ pyStrGe _ _ = true›, ?_, ?_, by omega, ?_⟩
                · intro p hp
                  have := hreq' p hp
                  simp only [decide_eq_true_eq] at this
                  omega
                · intro q hq p hp
                  have := hov' q hq
                  rcases hf : q.2.find? (fun p => p.2 < 0) with _ | bad
                  · have := List.find?_eq_none.mp hf p hp
                    simp only [decide_eq_true_eq] at this
                    omega
                  · rw [hf] at this
                    simp at this
                · intro p hp
                  have := hpol' p hp
                  unfold policy_entry_error at this
                  by_cases h1 : p.2.target_min.isNone
                  · rw [if_pos h1] at this; cases this
                  · rw [if_neg h1] at this
                    by_cases h2 : p.2.target_max.isNone
                    · rw [if_pos h2] at this; cases this
                    · rw [if_neg h2] at this
                      by_cases h3 : p.2.hard_cap.isNone
                      · rw [if_pos h3] at this; cases this
                      · rw [if_neg h3] at this
                        by_cases h4 : p.2.target_min.getD 0 > p.2.target_max.getD 0
                        · rw [if_pos h4] at this; cases this
                        · refine ⟨?_, ?_, ?_, le_of_not_lt h4⟩ <;>
                            simp_all [Option.isNone_iff_eq_none, Option.isSome_iff_ne_none]
  · rintro ⟨h1, h2, h3, h4, h5, h6⟩
    rw [if_neg (by omega), if_neg (by simp [h2])]
    have hreq : cfg.default_requirements.find? (fun p => p.2 < 0) = none :=
      List.find?_eq_none.mpr (fun p hp => by
        have := h3 p hp
        simp only [decide_eq_true_eq]
        omega)
    rw [hreq]
    have hov : cfg.overrides.findSome?
        (fun q => (q.2.find? (fun p => p.2 < 0)).map (fun p => (q.1, p.1)))
          = none :=
      List.findSome?_eq_none_iff.mpr (fun q hq => by
        have hf : q.2.find? (fun p => p.2 < 0) = none :=
          List.find?_eq_none.mpr (fun p hp => by
            have := h4 q hq p hp
            simp only [decide_eq_true_eq]
            omega)
        rw [hf]
        rfl)
    rw [hov, if_neg (by omega)]
    have hpol : cfg.hours_policy.findSome?
        (fun p => policy_entry_error p.1 p.2) = none :=
      List.findSome?_eq_none_iff.mpr (fun p hp => by
        obtain ⟨hmin, hmax, hcap, hle⟩ := h6 p hp
        unfold policy_entry_error
        rw [if_neg (by simp_all [Option.isSome_iff_ne_none, Option.isNone_iff_eq_none]),
          if_neg (by simp_all [Option.isSome_iff_ne_none, Option.isNone_iff_eq_none]),
          if_neg (by simp_all [Option.isSome_iff_ne_none, Option.isNone_iff_eq_none]),
          if_neg (not_lt_of_le hle)])
    rw [hpol]

/-! ## The manager scheduler ignores everything but slot 0 of its
window configuration -/

/-- The manager slot loop depends on the configuration only through the
hours policy, the cap argument and the timezone. -/
theorem manager_slots_congr (cfg1 cfg2 : SchedulerConfig) (score : ScoreFn)
    (managers : List Employee) (shift : Shift) (iw : Bool)
    (s e : String) (sh : ℚ) (ch : List (EmpId × ℚ))
    (htz : cfg1.timezone = cfg2.timezone)
    (hpol : cfg1.hours_policy = cfg2.hours_policy)
    (hcap : capArgument cfg1 = capArgument cfg2) :
    ∀ (n : Nat) (st : SchedState),
      manager_assign_slots cfg1 score managers shift iw s e sh ch n st
        = manager_assign_slots cfg2 score managers shift iw s e sh ch n st := by
  intro n
  induction n with
  | zero => intro st; rfl
  | succ n ih =>
    intro st
    simp only [manager_assign_slots]
    rw [htz, hpol, hcap]
    split
    case h_1 hcand => rfl
    case h_2 c cs hcand => exact ih _

/-- The manager day loop depends on the window table only through the
slot-0 resolution for each date. -/
theorem manager_day_congr (cfg1 cfg2 : SchedulerConfig) (score : ScoreFn)
    (managers : List Employee)
    (htz : cfg1.timezone = cfg2.timezone)
    (hpol : cfg1.hours_policy = cfg2.hours_policy)
    (hcap : capArgument cfg1 = capArgument cfg2)
    (hov : cfg1.overrides = cfg2.overrides)
    (hwr : cfg1.weekend_requirements = cfg2.weekend_requirements)
    (hdr : cfg1.default_requirements = cfg2.default_requirements)
    (hW : ∀ d, get_time_window_for_role "MANAGER" d cfg1 0
      = get_time_window_for_role "MANAGER" d cfg2 0) :
    ∀ (shifts : List Shift) (st : SchedState),
      manager_day_loop cfg1 score managers shifts st
        = manager_day_loop cfg2 score managers shifts st := by
  have hreq : ∀ d, build_requirements_for_day d cfg1
      = build_requirements_for_day d cfg2 := by
    intro d
    unfold build_requirements_for_day
    rw [hov, hwr, hdr]
  intro shifts
  induction shifts with
  | nil => intro st; rfl
  | cons shift rest ih =>
    intro st
    simp only [manager_day_loop]
    rw [hreq shift.date, hW shift.date]
    split
    case h_2 hnone => rfl
    case h_1 ms me hsome =>
      rw [manager_slots_congr cfg1 cfg2 score managers shift _ _ _ _ _
        htz hpol hcap]
      split
      case h_1 => rfl
      case h_2 st1 heq => exact ih st1

/-- `ManagerScheduler.make_schedule` depends on the window table only
through the slot-0 resolution for each date. -/
theorem manager_make_congr (cfg1 cfg2 : SchedulerConfig) (score : ScoreFn)
    (emps : List Employee) (shifts : List Shift)
    (htz : cfg1.timezone = cfg2.timezone)
    (hpol : cfg1.hours_policy = cfg2.hours_policy)
    (hcap : capArgument cfg1 = capArgument cfg2)
    (hov : cfg1.overrides = cfg2.overrides)
    (hwr : cfg1.weekend_requirements = cfg2.weekend_requirements)
    (hdr : cfg1.default_requirements = cfg2.default_requirements)
    (hW : ∀ d, get_time_window_for_role "MANAGER" d cfg1 0
      = get_time_window_for_role "MANAGER" d cfg2 0) :
    ManagerScheduler.make_schedule emps shifts cfg1 score
      = ManagerScheduler.make_schedule emps shifts cfg2 score := by
  unfold ManagerScheduler.make_schedule
  simp only [manager_day_congr cfg1 cfg2 score (get_by_role emps "MANAGER")
    htz hpol hcap hov hwr hdr hW]

/-- Replacing everything after the first entry of MANAGER's
weekend-staggered list leaves the slot-0 window resolution unchanged. -/
theorem manager_window_slot0_tail (cfg : SchedulerConfig)
    (rest : List (String × RoleWindows)) (rw0 : RoleWindows) (w : Window)
    (t t' : List Window) (d : Nat) :
    get_time_window_for_role "MANAGER" d
      (with_manager_staggered cfg rest rw0 (w :: t)) 0
    = get_time_window_for_role "MANAGER" d
      (with_manager_staggered cfg rest rw0 (w :: t')) 0 := by
  unfold get_time_window_for_role with_manager_staggered
  by_cases hwe : is_weekend_day d <;>
    simp [dict_get, List.find?, hwe]

/-! ## Claim-level helper lemmas -/

/-- Cap bounds extracted from the run invariant. -/
theorem inv_cap_bounds {role : String} {cfg : SchedulerConfig}
    {roster : List Employee} {Pwin : Assignment → Prop} {st : SchedState}
    (hI : SchedInv role cfg roster Pwin st) :
    (∀ a ∈ st.assignments,
      assigned_hours st.assignments a.emp_id ≤ schedCap role cfg)
    ∧ (0 ≤ schedCap role cfg →
        ∀ e, assigned_hours st.assignments e ≤ schedCap role cfg) := by
  constructor
  · intro a ha
    rw [← hI.hours_eq]
    exact hI.hours_cap a ha
  · intro hpos e
    by_cases hmem : ∃ a ∈ st.assignments, a.emp_id = e
    · obtain ⟨a, ha, hae⟩ := hmem
      rw [← hae, ← hI.hours_eq]
      exact hI.hours_cap a ha
    · push_neg at hmem
      rw [assigned_hours_of_not_mem hmem]
      exact hpos

theorem window_positive_b_spec {s e : String}
    (h : window_positive_b s e = true) :
    ∃ ms me, hm_minutes s = some ms ∧ hm_minutes e = some me ∧ ms < me := by
  unfold window_positive_b at h
  rcases hs : hm_minutes s with _ | ms <;> rw [hs] at h
  · cases h
  · rcases he : hm_minutes e with _ | me <;> rw [he] at h
    · cases h
    · exact ⟨ms, me, rfl, rfl, by simpa using h⟩

/-- When every configured window and the default window are positive,
so is every window the resolver returns. -/
theorem resolved_window_positive (cfg : SchedulerConfig)
    (hd : window_positive_b cfg.default_shift.start cfg.default_shift.end_
      = true)
    (hw : ∀ w ∈ config_windows cfg, window_positive_b w.start w.end_ = true)
    (role : String) (d : Nat) (i : Nat) :
    window_positive_b (get_time_window_for_role role d cfg i).1
      (get_time_window_for_role role d cfg i).2 = true := by
  rcases window_provenance role d cfg i with h | ⟨w, hwm, h⟩
  · rw [h]; exact hd
  · rw [h]; exact hw w hwm

/-- Positivity of an assignment's duration from its window property. -/
theorem winP_hours_pos {role : String} {cfg : SchedulerConfig} {a : Assignment}
    (hd : window_positive_b cfg.default_shift.start cfg.default_shift.end_
      = true)
    (hw : ∀ w ∈ config_windows cfg, window_positive_b w.start w.end_ = true)
    (hP : cohortWinP role cfg a) : 0 < assignment_hours a := by
  obtain ⟨d, i, hs, he⟩ := hP
  obtain ⟨ms, me, hms, hme, hlt⟩ :=
    window_positive_b_spec (resolved_window_positive cfg hd hw role d i)
  unfold assignment_hours
  rw [hs, he]
  simp only [hms, hme, Option.getD_some]
  have h1 : (0 : ℚ) < ((me - ms : Int) : ℚ) := by
    exact_mod_cast sub_pos.mpr hlt
  exact div_pos h1 (by norm_num)

/-- The manager window property implies the generic one. -/
theorem managerWinP_to_cohort {cfg : SchedulerConfig} {a : Assignment}
    (h : managerWinP cfg a) : cohortWinP "MANAGER" cfg a :=
  ⟨assignment_date a, 0, h.1, h.2⟩

/-- A pairwise-distinct `(employee, date)` list has at most one entry
per employee and date. -/
theorem pairwise_count_le_one {l : List Assignment}
    (hp : l.Pairwise (fun a b =>
      ¬(a.emp_id = b.emp_id ∧ assignment_date a = assignment_date b)))
    (e : EmpId) (d : Nat) :
    (l.filter (fun a => a.emp_id == e && assignment_date a == d)).length
      ≤ 1 := by
  induction l with
  | nil => simp
  | cons a rest ih =>
    have htail := ih (List.Pairwise.of_cons hp)
    rw [List.filter_cons]
    split
    case isTrue hpa =>
      simp only [Bool.and_eq_true, beq_iff_eq] at hpa
      have hrest : rest.filter
          (fun a => a.emp_id == e && assignment_date a == d) = [] := by
        rw [List.filter_eq_nil_iff]
        intro b hb hpb
        simp only [Bool.and_eq_true, beq_iff_eq] at hpb
        exact (List.rel_of_pairwise_cons hp hb)
          ⟨hpa.1.trans hpb.1.symm, hpa.2.trans hpb.2.symm⟩
      rw [hrest]
      simp
    case isFalse hpa => exact htail

/-- Employees scheduled under distinct roles have distinct ids whenever
the roster holds no duplicate ids. -/
theorem cross_role_disjoint {emps : List Employee}
    (hids : (emps.map (fun e => e.employee_id)).Nodup)
    {r1 r2 : String} (hne : r1.toUpper ≠ r2.toUpper) {a b : Assignment}
    (ha : ∃ emp ∈ get_by_role emps r1, emp.employee_id = a.emp_id)
    (hb : ∃ emp ∈ get_by_role emps r2, emp.employee_id = b.emp_id) :
    a.emp_id ≠ b.emp_id := by
  rintro heq
  obtain ⟨ea, hea, hia⟩ := ha
  obtain ⟨eb, heb, hib⟩ := hb
  obtain ⟨hea', hra⟩ := List.mem_filter.mp hea
  obtain ⟨heb', hrb⟩ := List.mem_filter.mp heb
  have hab : ea = eb :=
    List.inj_on_of_nodup_map hids hea' heb' (by rw [hia, hib, heq])
  apply hne
  have h1 : ea.primary_role = r1.toUpper := by simpa using hra
  have h2 : eb.primary_role = r2.toUpper := by simpa using hrb
  rw [← h1, ← h2, hab]

/-! ## C10 -/

/-- C10: the cap argument the role schedulers pass to the eligibility
checker — `getattr(cfg, 'global_hard_cap', 50.0)` — equals
`cfg.global_hard_cap` exactly for every `SchedulerConfig`, because the
dataclass always defines that attribute (default `None`); in
particular, when no global hard cap is configured the checker receives
`None`, never the 50-hour literal. -/
theorem C10_cap_argument_passthrough :
    (∀ cfg : SchedulerConfig, capArgument cfg = cfg.global_hard_cap)
    ∧ ∀ cfg : SchedulerConfig, cfg.global_hard_cap = none →
        capArgument cfg = none :=
  ⟨fun _ => rfl, fun cfg h => by rw [show capArgument cfg
    = cfg.global_hard_cap from rfl]; exact h⟩

/-- Witness for C10 at the default configuration, whose
`global_hard_cap` is `None`. -/
theorem C10_cap_argument_passthrough_witness :
    ({} : SchedulerConfig).global_hard_cap = none
    ∧ capArgument ({} : SchedulerConfig) = none :=
  ⟨rfl, C10_cap_argument_passthrough.2 {} rfl⟩

/-- C7 counterexample: two BARISTA candidates with identical scores, in
roster order [id 5, id 3].  The scheduler selects id 5 — the first pool
member — not the smallest id 3.  (The score function here is constant,
a legitimate instance of the missing `calculate_employee_score`; the
spec's scoring formula likewise assigns equal scores to employees with
identical skills and hours, so the tie is realisable.) -/
theorem C7_counterexample :
    (CohortScheduler.make_schedule "BARISTA" [e5C7, e3C7] [shC7] cfgC7
        scoreZero).map (fun l => l.map (fun a => a.emp_id)) = .ok [5]
    ∧ scoreZero "BARISTA" e5C7 0 [(5, 0), (3, 0)]
        = scoreZero "BARISTA" e3C7 0 [(5, 0), (3, 0)]
    ∧ (5 : Int) ≠ 3 := by
  with_unfolding_all decide

/-- C7 (amended): whenever candidates tie on the highest score, the
scheduler's selection step (`select_best`, the head of the stable
descending sort the three role schedulers all use) picks the first
pool member whose score dominates the whole pool — i.e. ties are broken
by candidate-pool (roster iteration) order, not by ascending employee
id. -/
theorem C7_amended_tiebreak_pool_order (x : ℚ × Employee)
    (xs : List (ℚ × Employee)) :
    first_highest_spec (x :: xs) = some (select_best x xs) :=
  select_best_eq_first_highest x xs

/-- C6 counterexample: on a weekend date (day 5, a Saturday), a role
whose window table has no staggered and no weekend entry falls through
to its *weekday* window, not to the config-wide default as the claim
states. -/
theorem C6_counterexample :
    is_weekend_day 5 = true
    ∧ (dict_get cfgC6.role_time_windows "BARISTA").isSome = true
    ∧ ((dict_get cfgC6.role_time_windows "BARISTA").getD {}).weekend_staggered
        = none
    ∧ ((dict_get cfgC6.role_time_windows "BARISTA").getD {}).weekend = none
    ∧ get_time_window_for_role "BARISTA" 5 cfgC6 0 = ("09:00", "17:00")
    ∧ ("09:00", "17:00")
        ≠ (cfgC6.default_shift.start, cfgC6.default_shift.end_) := by
  with_unfolding_all decide

/-- C6 (amended): the resolver implements the cascade — no configured
windows → default; on a weekend prefer the slot-indexed staggered entry,
else the weekend window (list-indexed or single); any still-unmatched
case, weekend dates included, next consults the weekday window
(list-indexed or single); only then the config-wide default.  It never
raises (it is a total function). -/
theorem C6_amended_window_cascade (role : String) (d : Nat)
    (cfg : SchedulerConfig) (i : Nat) :
    get_time_window_for_role role d cfg i = spec_time_window role d cfg i :=
  get_time_window_eq_spec role d cfg i

/-- C5 counterexample: a configuration with a negative weekend
headcount, a negative global hard cap and a non-positive per-role
`hard_cap` is accepted by `_validate_config`, contradicting the claim
that validation rejects negative headcounts in the weekend map and
non-positive hard caps. -/
theorem C5_counterexample :
    _validate_config cfgC5 = .ok ()
    ∧ dict_get cfgC5.weekend_requirements "MANAGER" = some (-1)
    ∧ cfgC5.global_hard_cap = some (-5)
    ∧ ((dict_get cfgC5.hours_policy "BARISTA").getD {}).hard_cap = some 0 := by
  with_unfolding_all decide

/-- C5 (amended): validation rejects exactly: a non-positive default
shift duration, a default start not strictly before its end (string
order), a negative headcount in the *default* or *date-override* maps,
a non-positive `max_hours_per_week_per_employee`, and an hours-policy
entry with a missing required field or `target_min > target_max`; it
accepts every other configuration.  Negative weekend headcounts and
non-positive hard caps (global or per-role) are not checked. -/
theorem C5_amended_validation_characterization (cfg : SchedulerConfig) :
    _validate_config cfg = .ok () ↔ config_accepted cfg :=
  validate_ok_iff cfg

/-- C1 counterexample: a validated configuration can carry a negative
global hard cap (validation never checks it, cf. C5).  A run that
completes with an employee left unassigned then has that employee's
assigned-hours sum 0, which exceeds the effective cap −5 — the claim's
"for every employee" bound fails. -/
theorem C1_counterexample :
    _validate_config cfgC1 = .ok ()
    ∧ ManagerScheduler.make_schedule [mgrC1] [shC1] cfgC1 scoreZero = .ok []
    ∧ schedCap "MANAGER" cfgC1 = -5
    ∧ ¬ (assigned_hours [] mgrC1.employee_id ≤ schedCap "MANAGER" cfgC1) := by
  with_unfolding_all decide

/-- C1 (amended): in every completed run of each role scheduler, every
employee who receives at least one shift has a weekly assigned-hours
sum at most the effective cap (role `hard_cap`, else the configured
global cap, else the 50-hour ceiling); and whenever the effective cap
is nonnegative — in particular whenever caps are unconfigured or
positive — the bound holds for every employee, the unassigned ones
having sum 0. -/
theorem C1_amended_cap_respected :
    (∀ (emps : List Employee) (shifts : List Shift) (cfg : SchedulerConfig)
        (score : ScoreFn) (l : List Assignment),
      ManagerScheduler.make_schedule emps shifts cfg score = .ok l →
      (∀ a ∈ l, assigned_hours l a.emp_id ≤ schedCap "MANAGER" cfg)
      ∧ (0 ≤ schedCap "MANAGER" cfg →
          ∀ e, assigned_hours l e ≤ schedCap "MANAGER" cfg))
    ∧ (∀ (emps : List Employee) (shifts : List Shift) (cfg : SchedulerConfig)
        (score : ScoreFn) (l : List Assignment),
      SandwichScheduler.make_schedule emps shifts cfg score = .ok l →
      (∀ a ∈ l, assigned_hours l a.emp_id ≤ schedCap "SANDWICH" cfg)
      ∧ (0 ≤ schedCap "SANDWICH" cfg →
          ∀ e, assigned_hours l e ≤ schedCap "SANDWICH" cfg))
    ∧ ∀ (role : String) (emps : List Employee) (shifts : List Shift)
        (cfg : SchedulerConfig) (score : ScoreFn) (l : List Assignment),
      CohortScheduler.make_schedule role emps shifts cfg score = .ok l →
      (∀ a ∈ l, assigned_hours l a.emp_id ≤ schedCap role.toUpper cfg)
      ∧ (0 ≤ schedCap role.toUpper cfg →
          ∀ e, assigned_hours l e ≤ schedCap role.toUpper cfg) := by
  refine ⟨?_, ?_, ?_⟩
  · intro emps shifts cfg score l h
    obtain ⟨st, rfl, hI⟩ := manager_make_inv h
    exact inv_cap_bounds hI
  · intro emps shifts cfg score l h
    obtain ⟨st, rfl, hI⟩ := sandwich_make_inv h
    exact inv_cap_bounds hI
  · intro role emps shifts cfg score l h
    obtain ⟨st, rfl, hI⟩ := cohort_make_inv h
    exact inv_cap_bounds hI

/-- Witness for C1 (amended) on a one-manager, one-day run. -/
theorem C1_amended_cap_respected_witness :
    ManagerScheduler.make_schedule [mgrW] [shiftW] cfgW scoreZero
      = .ok [aMgrW]
    ∧ ∀ a ∈ [aMgrW],
        assigned_hours [aMgrW] a.emp_id ≤ schedCap "MANAGER" cfgW :=
  ⟨by with_unfolding_all decide,
   (C1_amended_cap_respected.1 [mgrW] [shiftW] cfgW scoreZero [aMgrW]
     (by with_unfolding_all decide)).1⟩

/-- C8 counterexample: validation only compares the *default* window's
strings; a role window with start after end passes `_validate_config`,
and the cohort scheduler then emits an assignment whose window is
inverted and whose computed duration is −8 hours. -/
theorem C8_counterexample :
    _validate_config cfgC8 = .ok ()
    ∧ CohortScheduler.make_schedule "BARISTA" [barC8] [shC8] cfgC8 scoreZero
        = .ok [aC8]
    ∧ assignment_hours aC8 = -8
    ∧ ¬ (0 < assignment_hours aC8)
    ∧ pyStrGe aC8.start_time.hm aC8.end_time.hm = true := by
  with_unfolding_all decide

/-- C8 (amended): every assignment emitted by any role scheduler has a
positive computed duration (equivalently a start strictly before its
end), *provided* every configured role window, and the default window,
is strictly positive.  Validation alone does not guarantee this: it
checks only the default window's strings (see the counterexample). -/
theorem C8_amended_positive_durations (cfg : SchedulerConfig)
    (hd : window_positive_b cfg.default_shift.start cfg.default_shift.end_
      = true)
    (hw : ∀ w ∈ config_windows cfg, window_positive_b w.start w.end_ = true) :
    (∀ (emps : List Employee) (shifts : List Shift) (score : ScoreFn)
        (l : List Assignment),
      ManagerScheduler.make_schedule emps shifts cfg score = .ok l →
      ∀ a ∈ l, 0 < assignment_hours a)
    ∧ (∀ (emps : List Employee) (shifts : List Shift) (score : ScoreFn)
        (l : List Assignment),
      SandwichScheduler.make_schedule emps shifts cfg score = .ok l →
      ∀ a ∈ l, 0 < assignment_hours a)
    ∧ ∀ (role : String) (emps : List Employee) (shifts : List Shift)
        (score : ScoreFn) (l : List Assignment),
      CohortScheduler.make_schedule role emps shifts cfg score = .ok l →
      ∀ a ∈ l, 0 < assignment_hours a := by
  refine ⟨?_, ?_, ?_⟩
  · intro emps shifts score l h a ha
    obtain ⟨st, rfl, hI⟩ := manager_make_inv h
    exact winP_hours_pos hd hw (managerWinP_to_cohort (hI.winp a ha))
  · intro emps shifts score l h a ha
    obtain ⟨st, rfl, hI⟩ := sandwich_make_inv h
    exact winP_hours_pos hd hw (hI.winp a ha)
  · intro role emps shifts score l h a ha
    obtain ⟨st, rfl, hI⟩ := cohort_make_inv h
    exact winP_hours_pos hd hw (hI.winp a ha)

/-- Witness for C8 (amended): the default config's windows are positive
and the one-manager run's assignment has a positive duration. -/
theorem C8_amended_positive_durations_witness :
    window_positive_b cfgW.default_shift.start cfgW.default_shift.end_ = true
    ∧ ManagerScheduler.make_schedule [mgrW] [shiftW] cfgW scoreZero
        = .ok [aMgrW]
    ∧ 0 < assignment_hours aMgrW :=
  ⟨by with_unfolding_all decide,
   by with_unfolding_all decide,
   (C8_amended_positive_durations cfgW (by with_unfolding_all decide)
       (by with_unfolding_all decide)).1 [mgrW] [shiftW] scoreZero [aMgrW]
     (by with_unfolding_all decide) aMgrW (by simp)⟩

/-- C9: the manager scheduler resolves its time window once per day with
the resolver's default slot index 0, so (a) all of a day's manager
assignments carry the identical start and end — two weekend managers
get fully overlapping shifts — and (b) the run is unchanged by
replacing everything after entry 0 of a weekend-staggered list
configured for MANAGER: entries beyond slot 0 are never consulted. -/
theorem C9_manager_slot0_windows :
    (∀ (emps : List Employee) (shifts : List Shift) (cfg : SchedulerConfig)
        (score : ScoreFn) (l : List Assignment),
      ManagerScheduler.make_schedule emps shifts cfg score = .ok l →
      ∀ a ∈ l, ∀ b ∈ l, assignment_date a = assignment_date b →
        a.start_time = b.start_time ∧ a.end_time = b.end_time)
    ∧ ∀ (cfg : SchedulerConfig) (rest : List (String × RoleWindows))
        (rw0 : RoleWindows) (w : Window) (t t' : List Window)
        (emps : List Employee) (shifts : List Shift) (score : ScoreFn),
      ManagerScheduler.make_schedule emps shifts
          (with_manager_staggered cfg rest rw0 (w :: t)) score
        = ManagerScheduler.make_schedule emps shifts
          (with_manager_staggered cfg rest rw0 (w :: t')) score := by
  constructor
  · intro emps shifts cfg score l h a ha b hb hd
    obtain ⟨st, rfl, hI⟩ := manager_make_inv h
    obtain ⟨has, hae⟩ := hI.winp a ha
    obtain ⟨hbs, hbe⟩ := hI.winp b hb
    rw [has, hae, hbs, hbe, hd]
    exact ⟨rfl, rfl⟩
  · intro cfg rest rw0 w t t' emps shifts score
    exact manager_make_congr _ _ score emps shifts rfl rfl rfl rfl rfl rfl
      (fun d => manager_window_slot0_tail cfg rest rw0 w t t' d)

/-- Witness for C9 on a Saturday needing two managers: both assignments
share the same window. -/
theorem C9_manager_slot0_windows_witness :
    ManagerScheduler.make_schedule [mgr9, mgr9b] [sh9] {} scoreZero
      = .ok [a9a, a9b]
    ∧ a9a.start_time = a9b.start_time ∧ a9a.end_time = a9b.end_time :=
  ⟨by with_unfolding_all decide,
   C9_manager_slot0_windows.1 [mgr9, mgr9b] [sh9] {} scoreZero [a9a, a9b]
     (by with_unfolding_all decide) a9a (by simp) a9b (by simp) rfl⟩

/-- C4 counterexample: a weekend slot of the *sandwich* scheduler with
an enabled weekend fallback (min_required 0, so slot 0 qualifies) and
an empty candidate pool raises the insufficient-staff error instead of
being skipped: only the cohort scheduler implements the fallback. -/
theorem C4_counterexample :
    is_weekend_day shC4.date = true
    ∧ ((dict_get cfgC4.weekend_fallback "SANDWICH").getD {}).enabled.getD
        false = true
    ∧ ((dict_get cfgC4.weekend_fallback "SANDWICH").getD {}).min_required.getD
        1 = 0
    ∧ _validate_config cfgC4 = .ok ()
    ∧ SandwichScheduler.make_schedule [sndC4] [shC4] cfgC4 scoreZero
        = .error "Cannot assign SANDWICH for 5: insufficient eligible staff" := by
  with_unfolding_all decide

/-- C4 (amended): the empty-pool behaviour per scheduler.  (i) Only the
cohort scheduler skips a slot, and only when the day is a weekend, the
role's fallback is enabled and the slot index reaches the
minimum-required count; (ii) in every other empty-pool case the cohort
scheduler raises the insufficient-staff error naming role and date;
(iii) the sandwich and (iv) manager schedulers always raise it on an
empty pool, even when a fallback is configured for their role. -/
theorem C4_amended_fallback_semantics :
    (∀ (role : String) (cfg : SchedulerConfig) (score : ScoreFn)
        (roster : List Employee) (shift : Shift) (ch : List (EmpId × ℚ))
        (n idx : Nat) (st : SchedState) (ms me : Int),
      hm_minutes (get_time_window_for_role role shift.date cfg idx).1
        = some ms →
      hm_minutes (get_time_window_for_role role shift.date cfg idx).2
        = some me →
      roster.filter (fun emp =>
        can_assign_employee emp role shift.date (((me - ms : Int) : ℚ) / 60)
          (st.assigned_today shift.date) st.weekly_hours cfg.hours_policy
          (capArgument cfg)) = [] →
      ((dict_get cfg.weekend_fallback role).getD {}).enabled.getD false
        = true →
      (((dict_get cfg.weekend_fallback role).getD {}).min_required.getD 1
        ≤ (idx : Int)) →
      cohort_assign_slots role cfg score roster shift true ch (n + 1) idx st
        = cohort_assign_slots role cfg score roster shift true ch n (idx + 1)
            st)
    ∧ (∀ (role : String) (cfg : SchedulerConfig) (score : ScoreFn)
        (roster : List Employee) (shift : Shift) (iw : Bool)
        (ch : List (EmpId × ℚ)) (n idx : Nat) (st : SchedState) (ms me : Int),
      hm_minutes (get_time_window_for_role role shift.date cfg idx).1
        = some ms →
      hm_minutes (get_time_window_for_role role shift.date cfg idx).2
        = some me →
      roster.filter (fun emp =>
        can_assign_employee emp role shift.date (((me - ms : Int) : ℚ) / 60)
          (st.assigned_today shift.date) st.weekly_hours cfg.hours_policy
          (capArgument cfg)) = [] →
      (iw && ((dict_get cfg.weekend_fallback role).getD {}).enabled.getD false
        && decide (((dict_get cfg.weekend_fallback role).getD
            {}).min_required.getD 1 ≤ (idx : Int))) = false →
      cohort_assign_slots role cfg score roster shift iw ch (n + 1) idx st
        = .error ("Cannot assign " ++ role ++ " for " ++ toString shift.date
            ++ ": insufficient eligible staff"))
    ∧ (∀ (cfg : SchedulerConfig) (score : ScoreFn) (roster : List Employee)
        (shift : Shift) (iw : Bool) (ch : List (EmpId × ℚ)) (n idx : Nat)
        (st : SchedState) (ms me : Int),
      hm_minutes (get_time_window_for_role "SANDWICH" shift.date cfg idx).1
        = some ms →
      hm_minutes (get_time_window_for_role "SANDWICH" shift.date cfg idx).2
        = some me →
      roster.filter (fun emp =>
        can_assign_employee emp "SANDWICH" shift.date
          (((me - ms : Int) : ℚ) / 60) (st.assigned_today shift.date)
          st.weekly_hours cfg.hours_policy (capArgument cfg)) = [] →
      sandwich_assign_slots cfg score roster shift iw ch (n + 1) idx st
        = .error ("Cannot assign SANDWICH for " ++ toString shift.date
            ++ ": insufficient eligible staff"))
    ∧ ∀ (cfg : SchedulerConfig) (score : ScoreFn) (managers : List Employee)
        (shift : Shift) (iw : Bool) (s e : String) (sh : ℚ)
        (ch : List (EmpId × ℚ)) (n : Nat) (st : SchedState),
      managers.filter (fun emp =>
        can_assign_employee emp "MANAGER" shift.date sh
          (st.assigned_today shift.date) st.weekly_hours cfg.hours_policy
          (capArgument cfg)) = [] →
      manager_assign_slots cfg score managers shift iw s e sh ch (n + 1) st
        = .error ("Cannot assign manager for " ++ toString shift.date
            ++ ": insufficient eligible staff") := by
  refine ⟨?_, ?_, ?_, ?_⟩
  · intro role cfg score roster shift ch n idx st ms me hms hme hcand hen hmin
    simp only [cohort_assign_slots, hms, hme, hcand, hen, hmin]
    simp [hmin]
  · intro role cfg score roster shift iw ch n idx st ms me hms hme hcand hguard
    simp only [cohort_assign_slots, hms, hme, hcand]
    rw [if_neg]
    intro hc
    rw [hguard] at hc
    cases hc
  · intro cfg score roster shift iw ch n idx st ms me hms hme hcand
    simp only [sandwich_assign_slots, hms, hme, hcand]
  · intro cfg score managers shift iw s e sh ch n st hcand
    simp only [manager_assign_slots, hcand]

set_option maxRecDepth 8000 in

/-- Witness for C4 (amended), part (i): a weekend cohort slot with an
enabled fallback and no eligible candidate is skipped — the loop moves
on without emitting anything or failing. -/
theorem C4_amended_fallback_semantics_witness :
    cohort_assign_slots "BARISTA" cfgC4w scoreZero [barC4] shC4w true []
        1 0 initState
      = cohort_assign_slots "BARISTA" cfgC4w scoreZero [barC4] shC4w true []
        0 1 initState :=
  C4_amended_fallback_semantics.1 "BARISTA" cfgC4w scoreZero [barC4] shC4w
    [] 0 0 initState 420 900 (by with_unfolding_all decide)
    (by with_unfolding_all decide) (by with_unfolding_all decide)
    (by with_unfolding_all decide) (by with_unfolding_all decide)

/-! ## C3 -/

/-- C3: whenever `Orchestrator.build_schedule` returns normally, its
result is exactly the concatenation of the four role schedulers'
outputs, in scheduler-execution order, filtered to keep only the first
occurrence of each `(shift id, employee id)` pair with order preserved;
in particular no pair appears twice. -/
theorem C3_dedup_first_occurrence (emps : List Employee)
    (shifts : List Shift) (cfg : SchedulerConfig) (score : ScoreFn)
    (l1 l2 l3 l4 out : List Assignment)
    (h1 : ManagerScheduler.make_schedule emps shifts cfg score = .ok l1)
    (h2 : SandwichScheduler.make_schedule emps shifts cfg score = .ok l2)
    (h3 : CohortScheduler.make_schedule "BARISTA" emps shifts cfg score
      = .ok l3)
    (h4 : CohortScheduler.make_schedule "WAITER" emps shifts cfg score
      = .ok l4)
    (h : Orchestrator.build_schedule emps shifts cfg score = .ok out) :
    out = spec_keep_first (l1 ++ l2 ++ l3 ++ l4)
    ∧ (out.map assignment_key).Nodup := by
  unfold Orchestrator.build_schedule at h
  simp only [h1, h2, h3, h4] at h
  split at h
  · cases h
  · cases h
    exact ⟨deduplicate_eq_spec _, (dedup_go_keys_nodup _ []).1⟩

/-- Witness for C3 on a four-employee, one-day run in which nothing is
duplicated. -/
theorem C3_dedup_first_occurrence_witness :
    Orchestrator.build_schedule empsW [shiftW] cfgW scoreZero = .ok outW
    ∧ outW = spec_keep_first ([aMgrW] ++ [aSndW] ++ [aBarW] ++ [aWaiW])
    ∧ (outW.map assignment_key).Nodup :=
  ⟨by with_unfolding_all decide,
   C3_dedup_first_occurrence empsW [shiftW] cfgW scoreZero
     [aMgrW] [aSndW] [aBarW] [aWaiW] outW
     (by with_unfolding_all decide) (by with_unfolding_all decide)
     (by with_unfolding_all decide) (by with_unfolding_all decide)
     (by with_unfolding_all decide)⟩

/-! ## C2 -/

/-- C2: whenever the orchestrator returns normally over a roster with
no duplicate employee ids (Firestore keys employee documents by id),
the final list contains at most one assignment per employee per
calendar date: each scheduler's assigned-today set forbids same-day
repeats within a role, the role filters make the four rosters disjoint,
and deduplication only removes entries. -/
theorem C2_no_double_booking (emps : List Employee) (shifts : List Shift)
    (cfg : SchedulerConfig) (score : ScoreFn) (out : List Assignment)
    (hids : (emps.map (fun e => e.employee_id)).Nodup)
    (h : Orchestrator.build_schedule emps shifts cfg score = .ok out) :
    ∀ (e : EmpId) (d : Nat),
      (out.filter (fun a => a.emp_id == e && assignment_date a == d)).length
        ≤ 1 := by
  simp only [Orchestrator.build_schedule] at h
  split at h
  · cases h
  case h_2 l1 heq1 =>
    split at h
    · cases h
    case h_2 l2 heq2 =>
      split at h
      · cases h
      case h_2 l3 heq3 =>
        split at h
        · cases h
        case h_2 l4 heq4 =>
          split at h
          · cases h
          case h_2 u hval =>
            cases h
            intro e d
            apply pairwise_count_le_one
            refine List.Pairwise.sublist (dedup_go_sublist [] _) ?_
            obtain ⟨st1, hl1, hI1⟩ := manager_make_inv heq1
            obtain ⟨st2, hl2, hI2⟩ := sandwich_make_inv heq2
            obtain ⟨st3, hl3, hI3⟩ := cohort_make_inv heq3
            obtain ⟨st4, hl4, hI4⟩ := cohort_make_inv heq4
            subst hl1 hl2 hl3 hl4
            have cross : ∀ {r1 r2 : String}, r1.toUpper ≠ r2.toUpper →
                ∀ {x y : Assignment},
                (∃ emp ∈ get_by_role emps r1, emp.employee_id = x.emp_id) →
                (∃ emp ∈ get_by_role emps r2, emp.employee_id = y.emp_id) →
                ¬(x.emp_id = y.emp_id
                  ∧ assignment_date x = assignment_date y) := by
              intro r1 r2 hne x y hx hy hc
              exact cross_role_disjoint hids hne hx hy hc.1
            have hMS : ("MANAGER" : String).toUpper ≠ "SANDWICH".toUpper := by
              with_unfolding_all decide
            have hMB : ("MANAGER" : String).toUpper
                ≠ (("BARISTA" : String).toUpper).toUpper := by
              with_unfolding_all decide
            have hMW : ("MANAGER" : String).toUpper
                ≠ (("WAITER" : String).toUpper).toUpper := by
              with_unfolding_all decide
            have hSB : ("SANDWICH" : String).toUpper
                ≠ (("BARISTA" : String).toUpper).toUpper := by
              with_unfolding_all decide
            have hSW : ("SANDWICH" : String).toUpper
                ≠ (("WAITER" : String).toUpper).toUpper := by
              with_unfolding_all decide
            have hBW : (("BARISTA" : String).toUpper).toUpper
                ≠ (("WAITER" : String).toUpper).toUpper := by
              with_unfolding_all decide
            rw [List.pairwise_append]
            refine ⟨?_, hI4.nodup_ed, ?_⟩
            · rw [List.pairwise_append]
              refine ⟨?_, hI3.nodup_ed, ?_⟩
              · rw [List.pairwise_append]
                refine ⟨hI1.nodup_ed, hI2.nodup_ed, ?_⟩
                intro x hx y hy
                exact cross hMS (hI1.emp_src x hx) (hI2.emp_src y hy)
              · intro x hx y hy
                rcases List.mem_append.mp hx with hx | hx
                · exact cross hMB (hI1.emp_src x hx) (hI3.emp_src y hy)
                · exact cross hSB (hI2.emp_src x hx) (hI3.emp_src y hy)
            · intro x hx y hy
              rcases List.mem_append.mp hx with hx | hx
              · rcases List.mem_append.mp hx with hx | hx
                · exact cross hMW (hI1.emp_src x hx) (hI4.emp_src y hy)
                · exact cross hSW (hI2.emp_src x hx) (hI4.emp_src y hy)
              · exact cross hBW (hI3.emp_src x hx) (hI4.emp_src y hy)

/-- Witness for C2 on the four-employee, one-day run. -/
theorem C2_no_double_booking_witness :
    (empsW.map (fun e => e.employee_id)).Nodup
    ∧ Orchestrator.build_schedule empsW [shiftW] cfgW scoreZero = .ok outW
    ∧ (outW.filter (fun a =>
        a.emp_id == 1 && assignment_date a == 0)).length ≤ 1 :=
  ⟨by with_unfolding_all decide,
   by with_unfolding_all decide,
   C2_no_double_booking empsW [shiftW] cfgW scoreZero outW
     (by with_unfolding_all decide) (by with_unfolding_all decide) 1 0⟩
